import Mathlib

/-!
Verification development for the pmcs-terminal encryption core.

This file gives a shallow embedding of the key-management and
envelope-encryption engine of the repository (src/services/KeyManager.ts:
classes `KeyManager` and `CryptoService`, and
src/services/EncryptedFileRepository.ts: class `EncryptedFileRepository`)
and proves or refutes the frozen specification claims about it.

Modelling conventions:
* Node `Buffer` values are modelled by the inductive `Bytes`: raw byte
  strings, UTF-8 encodings of strings, concatenation, and `pbkdf2Sync`
  are free constructors.  Equality of `Bytes` terms is symbolic equality
  of derivation trees, which is the idealized-cryptography reading the
  specification itself uses (distinct derivation paths yield distinct
  keys, identical paths yield identical keys).
* AES-256-GCM as invoked through Node's legacy `crypto.createCipher` /
  `crypto.createDecipher` is modelled symbolically: `createCipher`
  derives the actual cipher key and IV deterministically from the passed
  key material alone (EVP_BytesToKey), so ciphertexts are a function of
  (key material, plaintext) and authentication tags a function of
  (key material, AAD, ciphertext); decryption returns the plaintext iff
  the recomputed tag matches, and fails (throws) otherwise.  Note the
  source never passes the random IV it stores in the metadata to the
  cipher.
* The filesystem is an association list from path strings to file
  contents; a file is either raw plaintext bytes or an encrypted JSON
  envelope (metadata plus base64 ciphertext), mirroring the on-disk JSON
  format structurally rather than textually.
* Wall-clock time is a natural number of milliseconds supplied by the
  environment; `crypto.randomBytes` outputs are supplied as explicit
  arguments of the operations that draw them.
* JSON parsing of entity files (`fs.readJSON` on plaintext) is abstracted
  by an environment predicate `parseOk` on the raw bytes.
-/

/-- Security classifications (enum `Classification` in src/types). -/
inductive Classification
| TOP_SECRET
| SECRET
| CONFIDENTIAL
| UNCLASSIFIED
deriving DecidableEq, Repr

/-- String value of a `Classification` enum member. -/
def classStr : Classification → String
| .TOP_SECRET => "TOP_SECRET"
| .SECRET => "SECRET"
| .CONFIDENTIAL => "CONFIDENTIAL"
| .UNCLASSIFIED => "UNCLASSIFIED"

/-- Corporate levels (enum `CorporateLevel` in src/types). -/
inductive CorporateLevel
| CEO
| COO
| CTO
| CFO
| EVP
| SVP
| VP
| DIRECTOR
| MANAGER
| SENIOR_MEMBER
| MEMBER
| OBSERVER
deriving DecidableEq, Repr

/-- String value of a `CorporateLevel` enum member. -/
def corpStr : CorporateLevel → String
| .CEO => "CEO"
| .COO => "COO"
| .CTO => "CTO"
| .CFO => "CFO"
| .EVP => "EVP"
| .SVP => "SVP"
| .VP => "VP"
| .DIRECTOR => "DIRECTOR"
| .MANAGER => "MANAGER"
| .SENIOR_MEMBER => "SENIOR_MEMBER"
| .MEMBER => "MEMBER"
| .OBSERVER => "OBSERVER"

/-- System roles (enum `SystemRole` in src/types). -/
inductive SystemRole
| owner
| admin
| member
deriving DecidableEq, Repr

/-- String value of a `SystemRole` enum member ('system.owner' etc.). -/
def roleStr : SystemRole → String
| .owner => "system.owner"
| .admin => "system.admin"
| .member => "system.member"

/-- An organization membership as carried by the authentication session
(`OrganizationMembership` in src/types; only the fields the encryption
core reads). -/
structure OrganizationMembership where
  organizationId : String
  corporateLevel : CorporateLevel
  status : String
deriving DecidableEq, Repr

/-- The user record of the current session (only fields the core reads). -/
structure User where
  id : String
  systemRole : SystemRole
deriving DecidableEq, Repr

/-- Result of `AuthenticationService.getCurrentSession()`. -/
structure AuthSession where
  user : User
  organizationMemberships : List OrganizationMembership
deriving DecidableEq, Repr

/-- Symbolic model of Node `Buffer` values and of `crypto.pbkdf2Sync`.
`raw` is a literal byte string, `str` is `Buffer.from(<string>)`, `cat`
is binary `Buffer.concat`, and `pbkdf2 password salt iterations keyLen`
is `crypto.pbkdf2Sync(password, salt, iterations, keyLen, 'sha256')`.
Constructors are free: two buffers are equal exactly when they are built
the same way, the standard symbolic idealization of a collision-free
KDF. -/
inductive Bytes
| raw : List Nat → Bytes
| str : String → Bytes
| cat : Bytes → Bytes → Bytes
| pbkdf2 : Bytes → Bytes → Nat → Nat → Bytes
deriving DecidableEq, Repr

/-- `Buffer.concat` of a list of buffers, folded left as Node does. -/
def bufConcat : List Bytes → Bytes
| [] => Bytes.raw []
| b :: bs => bs.foldl Bytes.cat b

/-- Association-list lookup (models JS `Map.get`). -/
def lookupA {α : Type} : List (String × α) → String → Option α
| [], _ => none
| (k, v) :: rest, key => if k = key then some v else lookupA rest key

/-- Association-list removal (models JS `Map.delete`). -/
def removeA {α : Type} (l : List (String × α)) (key : String) : List (String × α) :=
  l.filter (fun p => !(p.1 = key : Bool))

/-- Association-list set (models JS `Map.set`: replace or add). -/
def setA {α : Type} (l : List (String × α)) (key : String) (v : α) : List (String × α) :=
  (key, v) :: removeA l key

/-- Prefix test on character lists. -/
def isPrefixOfC : List Char → List Char → Bool
| [], _ => true
| _ :: _, [] => false
| a :: as, b :: bs => a = b && isPrefixOfC as bs

/-- Substring test on character lists (`String.prototype.includes`). -/
def containsSub (pat : List Char) : List Char → Bool
| [] => isPrefixOfC pat []
| c :: rest => isPrefixOfC pat (c :: rest) || containsSub pat rest

/-- JS `String.prototype.replace` with a string pattern: replaces only the
first occurrence of `pat` (inserting `repl` at the front when `pat` is
empty, as JS does). -/
def replaceFirstC (pat repl : List Char) : List Char → List Char
| [] => if isPrefixOfC pat [] then repl else []
| c :: rest =>
  if isPrefixOfC pat (c :: rest) then repl ++ (c :: rest).drop pat.length
  else c :: replaceFirstC pat repl rest

/-- Segment of a path after the last '/' (Node `path.basename` for the
slash-free-suffix paths this system builds). -/
def basenameC (s : List Char) : List Char :=
  (List.takeWhile (fun c => !(c = '/' : Bool)) s.reverse).reverse

/-- `String.prototype.includes` on strings. -/
def strContains (s pat : String) : Bool :=
  containsSub pat.data s.data

/-- JS first-occurrence `replace` on strings. -/
def strReplaceFirst (s pat repl : String) : String :=
  ⟨replaceFirstC pat.data repl.data s.data⟩

/-- Node `path.basename` on strings. -/
def strBasename (s : String) : String :=
  ⟨basenameC s.data⟩

/-- `String.prototype.endsWith`. -/
def strEndsWith (s pat : String) : Bool :=
  isPrefixOfC pat.data.reverse s.data.reverse

/-- `String.prototype.startsWith`. -/
def strStartsWith (s pat : String) : Bool :=
  isPrefixOfC pat.data s.data

example : strReplaceFirst ("a.encrypted.txt.encrypted") (".encrypted") ("") = "a.txt.encrypted" := by decide
example : strBasename ("items/e1.json") = "e1.json" := by decide
example : strContains ("u:global:UNCLASSIFIED:MEMBER") (":a:") = false := by decide
example : strEndsWith ("x.json.encrypted") (".encrypted") = true := by decide

/-- The associated data bound by `cipher.setAAD` in
`CryptoService.encryptFile`/`decryptFile`: `JSON.stringify` of the object
with these five fields (in this fixed key order, so equality of the
structures coincides with equality of the serialized strings). -/
structure AAD where
  userId : String
  organizationId : Option String
  classification : Classification
  corporateLevel : CorporateLevel
  fileName : String
deriving DecidableEq, Repr

/-- Symbolic AES-256-GCM ciphertext as produced through the legacy
`crypto.createCipher`: the effective cipher key and IV are derived
deterministically from the key material alone, so the ciphertext is a
free function of (key material, plaintext). -/
inductive Ciphertext
| enc : Bytes → List Nat → Ciphertext
deriving DecidableEq, Repr

/-- Symbolic GCM authentication tag: a free function of the key
material, the associated data, and the ciphertext. -/
inductive AuthTag
| tag : Bytes → AAD → Ciphertext → AuthTag
deriving DecidableEq, Repr

/-- `cipher.update/final/getAuthTag` on the encrypt side. -/
def gcmEncrypt (key : Bytes) (aad : AAD) (pt : List Nat) : Ciphertext × AuthTag :=
  (Ciphertext.enc key pt, AuthTag.tag key aad (Ciphertext.enc key pt))

/-- `decipher.setAuthTag/setAAD/update/final` on the decrypt side:
returns the plaintext when the recomputed tag over (key, AAD,
ciphertext) matches the presented tag, and fails (the source throws)
otherwise.  GCM fails closed: no partial plaintext is released on a tag
mismatch. -/
def gcmDecrypt (key : Bytes) (aad : AAD) (ct : Ciphertext) (t : AuthTag) : Option (List Nat) :=
  if t = AuthTag.tag key aad ct then
    match ct with
    | .enc k pt => if k = key then some pt else none
  else none

/-- `EncryptionMetadata` (src/services/KeyManager.ts, CryptoService part).
`encryptedAt` is in epoch milliseconds; `iv` and `salt` are the byte
strings whose hex encodings the source stores. -/
structure EncryptionMetadata where
  algorithm : String
  version : String
  fileType : String
  originalSize : Nat
  encryptedAt : Nat
  encryptedBy : String
  organizationId : Option String
  classification : Classification
  corporateLevel : CorporateLevel
  iv : List Nat
  authTag : AuthTag
  salt : List Nat
  iterations : Nat
  keyLength : Nat
deriving DecidableEq, Repr

/-- On-disk file contents: raw plaintext bytes, or the JSON envelope
`{metadata, data: base64}` written by `encryptFile`. -/
inductive FileContent
| plain : List Nat → FileContent
| envelope : EncryptionMetadata → Ciphertext → FileContent
deriving DecidableEq, Repr

/-- The filesystem: an association list from paths to contents. -/
abbrev FS : Type := List (String × FileContent)

/-- `fs.pathExists`. -/
def fsExists (fs : FS) (p : String) : Bool :=
  (lookupA fs p).isSome

/-- `fs.readFile`-level access to a path's contents. -/
def fsRead (fs : FS) (p : String) : Option FileContent :=
  lookupA fs p

/-- `fs.writeFile` (creates or overwrites). -/
def fsWrite (fs : FS) (p : String) (c : FileContent) : FS :=
  setA fs p c

/-- `fs.remove`. -/
def fsRemove (fs : FS) (p : String) : FS :=
  removeA fs p

/-- A `DecryptionSession` of CryptoService: per-user, time-boxed cache of
derived file keys keyed by the composite key id. -/
structure DecryptionSession where
  sessionKey : Bytes
  derivedKeys : List (String × Bytes)
  expiresAt : Nat
deriving DecidableEq, Repr

/-- Mutable state of `CryptoService` together with the filesystem it
operates on. -/
structure CryptoState where
  fs : FS
  activeSessions : List (String × DecryptionSession)
deriving DecidableEq, Repr

/-- Ambient environment of a CryptoService call: the authentication
session (`getCurrentSession()` throws when it is `none`), the bytes of
the `.pmcs/encryption/master.key` file (initialization guarantees it
exists), the wall clock, and the abstract JSON-parse oracle for
plaintext entity files. -/
structure Env where
  currentSession : Option AuthSession
  masterKey : List Nat
  now : Nat
  parseOk : List Nat → Bool
  ivStream : Nat → List Nat
  saltStream : Nat → List Nat

/-- Errors thrown by the CryptoService layer. -/
inductive CryptoError
| noSession
| fileNotFound
| notEnvelope
| accessDenied
| decryptionFailed
| notPlain
deriving DecidableEq, Repr

/-- The composite key id `userId:org-or-global:classification:corporateLevel`
used by `CryptoService.deriveFileKey` and the session cache. -/
def fileKeyId (userId : String) (organizationId : Option String)
    (cl : Classification) (corp : CorporateLevel) : String :=
  userId ++ (":") ++ (organizationId.getD ("global")) ++ (":") ++ classStr cl ++ (":") ++ corpStr corp

/-- The password buffer `Buffer.concat([masterKey, userId, orgId || '',
classification, corporateLevel])` of `deriveFileKey`. -/
def fileKeyPassword (masterKey : List Nat) (userId : String)
    (organizationId : Option String) (cl : Classification) (corp : CorporateLevel) : Bytes :=
  bufConcat [Bytes.raw masterKey, Bytes.str userId, Bytes.str (organizationId.getD ("")),
    Bytes.str (classStr cl), Bytes.str (corpStr corp)]

/-- `CryptoService.deriveFileKey` (src/services/KeyManager.ts lines
849-885).  Returns the derived key and the updated state.  `saltO` is
the optional salt argument; `freshSalt` stands for the
`crypto.randomBytes(SALT_LENGTH)` drawn when no salt is passed.  When
the acting user has an entry in `activeSessions` whose `derivedKeys`
cache holds the composite key id, that cached key is returned and the
salt argument is ignored (the source checks only `activeSessions.get`,
never `expiresAt`, here). -/
def deriveFileKey (env : Env) (st : CryptoState) (userId : String)
    (organizationId : Option String) (cl : Classification) (corp : CorporateLevel)
    (saltO : Option (List Nat)) (freshSalt : List Nat) : Bytes × CryptoState :=
  let keyId := fileKeyId userId organizationId cl corp
  match lookupA st.activeSessions userId with
  | some sess =>
    match lookupA sess.derivedKeys keyId with
    | some k => (k, st)
    | none =>
      let useSalt := saltO.getD freshSalt
      let k := Bytes.pbkdf2 (fileKeyPassword env.masterKey userId organizationId cl corp)
        (Bytes.raw useSalt) 100000 32
      let sess' := { sess with derivedKeys := setA sess.derivedKeys keyId k }
      (k, { st with activeSessions := setA st.activeSessions userId sess' })
  | none =>
    let useSalt := saltO.getD freshSalt
    let k := Bytes.pbkdf2 (fileKeyPassword env.masterKey userId organizationId cl corp)
      (Bytes.raw useSalt) 100000 32
    (k, st)

/-- The fixed corporate hierarchy list (index 0 = lowest), as written in
both `KeyManager.validateUserKeyAccess` and
`CryptoService.canDecryptFile`. -/
def corporateHierarchy : List String :=
  ["OBSERVER", "MEMBER", "SENIOR_MEMBER", "MANAGER", "DIRECTOR",
   "VP", "SVP", "EVP", "CFO", "CTO", "COO", "CEO"]

/-- JS `Array.prototype.indexOf` (-1 when absent). -/
def jsIndexOf : List String → String → Int
| [], _ => -1
| a :: as, x =>
  if a = x then 0
  else
    let r := jsIndexOf as x
    if r < 0 then -1 else r + 1

/-- `CryptoService.canDecryptFile` (src/services/KeyManager.ts lines
887-927).  `sess` is the result of the `getCurrentSession()` call the
enclosing `decryptFile` already performed. -/
def canDecryptFile (sess : AuthSession) (metadata : EncryptionMetadata)
    (userId : String) : Bool :=
  if sess.user.systemRole = SystemRole.owner then true
  else if metadata.encryptedBy = userId then true
  else
    match metadata.organizationId with
    | some oid =>
      match sess.organizationMemberships.find? (fun m => m.organizationId = oid) with
      | none => false
      | some membership =>
        if !(membership.status = ("ACTIVE") : Bool) then false
        else
          let canAccessClassification :=
            sess.user.systemRole = SystemRole.owner
              || metadata.classification = Classification.UNCLASSIFIED
          if !canAccessClassification then false
          else
            let userLevel := jsIndexOf corporateHierarchy (corpStr membership.corporateLevel)
            let requiredLevel := jsIndexOf corporateHierarchy (corpStr metadata.corporateLevel)
            decide (requiredLevel ≤ userLevel)
    | none => false

/-- Node `path.extname`, as used only to fill the `fileType` metadata
field (`fileExtension || 'unknown'`); the field is never read back by
the decryption logic. -/
def strExtname (s : String) : String :=
  let base := basenameC s.data
  if containsSub ['.'] base then
    ⟨'.' :: (List.takeWhile (fun c => !(c = '.' : Bool)) base.reverse).reverse⟩
  else ("")

/-- `CryptoService.encryptFile` (src/services/KeyManager.ts lines
581-658).  `iv` and `salt` stand for the two `crypto.randomBytes` draws.
Returns the path of the written envelope and the updated state: the
envelope is written at `filePath ++ ".encrypted"` and the plaintext file
is removed.  Reading the plaintext of a non-plain file is outside the
algebraic file model and reported as `notPlain`. -/
def encryptFile (env : Env) (st : CryptoState) (filePath : String)
    (organizationId : Option String) (cl : Classification) (corp : CorporateLevel)
    (iv salt : List Nat) : Except CryptoError (String × CryptoState) :=
  match env.currentSession with
  | none => .error .noSession
  | some sess =>
    match fsRead st.fs filePath with
    | none => .error .fileNotFound
    | some (.envelope _ _) => .error .notPlain
    | some (.plain bytes) =>
      let (derivedKey, st1) :=
        deriveFileKey env st sess.user.id organizationId cl corp (some salt) salt
      let aad : AAD :=
        { userId := sess.user.id, organizationId := organizationId,
          classification := cl, corporateLevel := corp,
          fileName := strBasename filePath }
      let (ct, authTag) := gcmEncrypt derivedKey aad bytes
      let metadata : EncryptionMetadata :=
        { algorithm := ("aes-256-gcm"), version := ("1.0.0"),
          fileType := if strExtname filePath = ("") then ("unknown") else strExtname filePath,
          originalSize := bytes.length, encryptedAt := env.now,
          encryptedBy := sess.user.id, organizationId := organizationId,
          classification := cl, corporateLevel := corp,
          iv := iv, authTag := authTag, salt := salt,
          iterations := 100000, keyLength := 32 }
      let encryptedPath := filePath ++ (".encrypted")
      let fs1 := fsWrite st1.fs encryptedPath (.envelope metadata ct)
      let fs2 := fsRemove fs1 filePath
      .ok (encryptedPath, { st1 with fs := fs2 })

/-- Events recorded along a `decryptFile` run, in order: a key
derivation, and a plaintext write. -/
inductive DecEvent
| derivedKey
| wrote : String → DecEvent
deriving DecidableEq, Repr

/-- `CryptoService.decryptFile` (src/services/KeyManager.ts lines
660-708).  Returns the result (final plaintext path or error), the
updated state, and the trace of derivation/write events.  Note, traced
from the source: the `iv` parsed from the metadata is never passed to
the decipher (`createDecipher` takes only the key material), the key is
re-derived for `metadata.encryptedBy` with the stored salt, and the AAD
file name is `basename(encryptedPath).replace('.encrypted', '')` (first
occurrence).  The output path is `outputPath` or
`encryptedPath.replace('.encrypted', '')` (first occurrence). -/
def decryptFile (env : Env) (st : CryptoState) (encryptedPath : String)
    (outputPath : Option String) :
    Except CryptoError String × CryptoState × List DecEvent :=
  match env.currentSession with
  | none => (.error .noSession, st, [])
  | some sess =>
    match fsRead st.fs encryptedPath with
    | none => (.error .fileNotFound, st, [])
    | some (.plain _) => (.error .notEnvelope, st, [])
    | some (.envelope metadata encryptedData) =>
      if !canDecryptFile sess metadata sess.user.id then
        (.error .accessDenied, st, [])
      else
        let (derivedKey, st1) :=
          deriveFileKey env st metadata.encryptedBy metadata.organizationId
            metadata.classification metadata.corporateLevel (some metadata.salt) metadata.salt
        let aad : AAD :=
          { userId := metadata.encryptedBy, organizationId := metadata.organizationId,
            classification := metadata.classification, corporateLevel := metadata.corporateLevel,
            fileName := strReplaceFirst (strBasename encryptedPath) (".encrypted") ("") }
        match gcmDecrypt derivedKey aad encryptedData metadata.authTag with
        | none => (.error .decryptionFailed, st1, [DecEvent.derivedKey])
        | some decryptedData =>
          let finalPath := outputPath.getD (strReplaceFirst encryptedPath (".encrypted") (""))
          let fs1 := fsWrite st1.fs finalPath (.plain decryptedData)
          (.ok finalPath, { st1 with fs := fs1 },
            [DecEvent.derivedKey, DecEvent.wrote finalPath])

/-- The `keyType` discriminator of a `KeyRotationSchedule`. -/
inductive KeyType
| master
| organization
| user
deriving DecidableEq, Repr

/-- `KeyRotationSchedule` (src/services/KeyManager.ts lines 26-32);
times in epoch milliseconds. -/
structure KeyRotationSchedule where
  keyType : KeyType
  lastRotated : Nat
  nextRotation : Nat
  rotationInterval : Nat
  autoRotate : Bool
deriving DecidableEq, Repr

/-- In-memory state of `KeyManager`: the key hierarchy plus the rotation
schedules.  JS `Map`s keyed by enum values are keyed here by the enum's
string value.  `saveKeyHierarchy`/`saveRotationSchedules` only mirror
this state to disk and are not modelled separately. -/
structure KMState where
  masterKey : Bytes
  systemKeys : List (String × Bytes)
  organizationKeys : List (String × Bytes)
  classificationKeys : List (String × List (String × Bytes))
  corporateKeys : List (String × List (String × Bytes))
  userSessionKeys : List (String × Bytes)
  rotationSchedules : List (String × KeyRotationSchedule)
deriving DecidableEq, Repr

/-- Errors surfaced by KeyManager operations.  The in-memory cache
updates of a rotation all happen before its audit-log append, so a
failed rotation still leaves the deletions behind. -/
inductive KMError
| auditLogFailed
deriving DecidableEq, Repr

/-- Environment of KeyManager calls: the wall clock, the replacement
master key drawn by `generateMasterKey` during a master rotation, and an
oracle saying whether the I/O performed by `logKeyRotation` (the
audit-log append and the `getCurrentSession()` it makes) throws for a
given rotation.  The oracle abstracts the only fallible effects of a
rotation; everything else is in-memory. -/
structure KMEnv where
  now : Nat
  newMasterKey : Bytes
  auditFails : KeyType → String → Bool

/-- `KEY_ROTATION_INTERVAL` = 30 days in milliseconds. -/
def keyRotationInterval : Nat := 2592000000

/-- The deterministic organization key:
`pbkdf2Sync(masterKey, 'org:' + organizationId, 100000, 32, 'sha256')`. -/
def orgKeySpec (masterKey : Bytes) (organizationId : String) : Bytes :=
  Bytes.pbkdf2 masterKey (Bytes.str (("org:") ++ organizationId)) 100000 32

/-- The deterministic classification key, derived from the organization
key with label `'class:' + classification`. -/
def classKeySpec (masterKey : Bytes) (organizationId : String) (cl : Classification) : Bytes :=
  Bytes.pbkdf2 (orgKeySpec masterKey organizationId)
    (Bytes.str (("class:") ++ classStr cl)) 100000 32

/-- The deterministic system-role key, label `'sys:' + role`. -/
def sysKeySpec (masterKey : Bytes) (role : SystemRole) : Bytes :=
  Bytes.pbkdf2 masterKey (Bytes.str (("sys:") ++ roleStr role)) 100000 32

/-- `KeyManager.deriveSystemKeys`: the fixed three system-role keys. -/
def deriveSystemKeysList (masterKey : Bytes) : List (String × Bytes) :=
  [(roleStr SystemRole.owner, sysKeySpec masterKey SystemRole.owner),
   (roleStr SystemRole.admin, sysKeySpec masterKey SystemRole.admin),
   (roleStr SystemRole.member, sysKeySpec masterKey SystemRole.member)]

/-- State after a fresh `KeyManager.initialize()` on a repository whose
master key file holds `mk` and which has no persisted key hierarchy or
rotation schedule files: empty caches, re-derived system keys. -/
def kmFresh (mk : Bytes) : KMState :=
  { masterKey := mk, systemKeys := deriveSystemKeysList mk,
    organizationKeys := [], classificationKeys := [], corporateKeys := [],
    userSessionKeys := [], rotationSchedules := [] }

/-- `KeyManager.scheduleKeyRotation`: store a fresh schedule for the key
id (30-day interval, auto-rotation on). -/
def scheduleKeyRotation (env : KMEnv) (st : KMState) (keyId : String) (kt : KeyType) : KMState :=
  let sch : KeyRotationSchedule :=
    { keyType := kt, lastRotated := env.now,
      nextRotation := env.now + keyRotationInterval,
      rotationInterval := keyRotationInterval, autoRotate := true }
  { st with rotationSchedules := setA st.rotationSchedules keyId sch }

/-- `KeyManager.deriveOrganizationKey` (lines 70-90): cached key if
present, else derive from the master key with label `org:<id>`, cache,
and schedule rotation for `org:<id>`. -/
def deriveOrganizationKey (env : KMEnv) (st : KMState) (organizationId : String) :
    Bytes × KMState :=
  match lookupA st.organizationKeys organizationId with
  | some k => (k, st)
  | none =>
    let orgKey := orgKeySpec st.masterKey organizationId
    let st1 := { st with organizationKeys := setA st.organizationKeys organizationId orgKey }
    let st2 := scheduleKeyRotation env st1 (("org:") ++ organizationId) KeyType.organization
    (orgKey, st2)

/-- First step of `KeyManager.deriveClassificationKey` (lines 96-98):
ensure the organization's (possibly empty) classification map exists. -/
def ensureClassEntry (st : KMState) (organizationId : String) : KMState :=
  if (lookupA st.classificationKeys organizationId).isSome then st
  else { st with classificationKeys := setA st.classificationKeys organizationId [] }

/-- `KeyManager.deriveClassificationKey` (lines 92-121): after ensuring
the entry, returns the cached key if present, else derives the
organization key and then the classification key from it.  The inner
map captured before the organization-key derivation is the same object
afterwards, since `deriveOrganizationKey` never touches
`classificationKeys`. -/
def deriveClassificationKey (env : KMEnv) (st : KMState) (organizationId : String)
    (cl : Classification) : Bytes × KMState :=
  let st0 := ensureClassEntry st organizationId
  let m := (lookupA st0.classificationKeys organizationId).getD []
  match lookupA m (classStr cl) with
  | some k => (k, st0)
  | none =>
    let (orgKey, st1) := deriveOrganizationKey env st0 organizationId
    let classKey := Bytes.pbkdf2 orgKey (Bytes.str (("class:") ++ classStr cl)) 100000 32
    let cks := setA st1.classificationKeys organizationId (setA m (classStr cl) classKey)
    (classKey, { st1 with classificationKeys := cks })

/-- `KeyManager.validateUserKeyAccess` (lines 198-245).  `sessO` is the
`getCurrentSession()` result; `none` means the call threw, which the
surrounding `try` turns into `false`.  Note the source compares the
system role against the string literal 'system.owner' here, and against
the enum constant in the classification check. -/
def validateUserKeyAccess (sessO : Option AuthSession) (userId : String)
    (organizationId : Option String) (cl : Classification) (corp : CorporateLevel) : Bool :=
  match sessO with
  | none => false
  | some sess =>
    if sess.user.id ≠ userId ∧ roleStr sess.user.systemRole ≠ ("system.owner") then false
    else
      match organizationId with
      | none => true
      | some oid =>
        match sess.organizationMemberships.find?
            (fun m => m.organizationId = oid && m.status = ("ACTIVE")) with
        | none => false
        | some membership =>
          let canAccessClassification :=
            sess.user.systemRole = SystemRole.owner || cl = Classification.UNCLASSIFIED
          if !canAccessClassification then false
          else
            let userLevel := jsIndexOf corporateHierarchy (corpStr membership.corporateLevel)
            let requiredLevel := jsIndexOf corporateHierarchy (corpStr corp)
            if userLevel < requiredLevel then false else true

/-- `KeyManager.rotateOrganizationKeys` (lines 247-263): delete the
organization's entry from the organization, classification and
corporate caches, delete every user-session key whose id contains
`:<orgId>:`, then immediately re-derive (and re-cache) the organization
key, and finally append an audit record — the only fallible step, taken
after all cache updates. -/
def rotateOrganizationKeysM (env : KMEnv) (st : KMState) (organizationId : String) :
    KMState × Option KMError :=
  let remaining :=
    st.userSessionKeys.filter (fun p => !strContains p.1 ((":") ++ organizationId ++ (":")))
  let st1 :=
    { st with
      organizationKeys := removeA st.organizationKeys organizationId,
      classificationKeys := removeA st.classificationKeys organizationId,
      corporateKeys := removeA st.corporateKeys organizationId,
      userSessionKeys := remaining }
  let (_, st2) := deriveOrganizationKey env st1 organizationId
  if env.auditFails KeyType.organization organizationId then (st2, some KMError.auditLogFailed)
  else (st2, none)

/-- `KeyManager.rotateUserSessionKeys` (lines 265-275): delete every
session key whose id starts with `<userId>:`, then audit. -/
def rotateUserSessionKeysM (env : KMEnv) (st : KMState) (userId : String) :
    KMState × Option KMError :=
  let remaining :=
    st.userSessionKeys.filter (fun p => !strStartsWith p.1 (userId ++ (":")))
  let st1 := { st with userSessionKeys := remaining }
  if env.auditFails KeyType.user userId then (st1, some KMError.auditLogFailed)
  else (st1, none)

/-- `KeyManager.rotateMasterKey` (lines 277-293): generate and load a
new master key, clear every cache, re-derive the system keys, then
audit. -/
def rotateMasterKeyM (env : KMEnv) (st : KMState) : KMState × Option KMError :=
  let st1 :=
    { st with
      masterKey := env.newMasterKey,
      systemKeys := deriveSystemKeysList env.newMasterKey,
      organizationKeys := [], classificationKeys := [], corporateKeys := [],
      userSessionKeys := [] }
  if env.auditFails KeyType.master ("system") then (st1, some KMError.auditLogFailed)
  else (st1, none)

/-- The body of one iteration of `checkAndPerformScheduledRotations`:
dispatch on the schedule's `keyType`, stripping the `org:`/`user:`
prefix from the key id exactly as the source's `keyId.replace` does. -/
def rotateDispatch (env : KMEnv) (st : KMState) (keyId : String) (kt : KeyType) :
    KMState × Option KMError :=
  match kt with
  | .master => rotateMasterKeyM env st
  | .organization => rotateOrganizationKeysM env st (strReplaceFirst keyId ("org:") (""))
  | .user => rotateUserSessionKeysM env st (strReplaceFirst keyId ("user:") (""))

/-- The post-rotation schedule update of the loop
(`schedule.lastRotated = now; schedule.nextRotation = now + interval`).
For an organization rotation, `deriveOrganizationKey` has just replaced
the map entry with a fresh schedule object (via `scheduleKeyRotation`),
so the loop's mutation hits a detached object and the map keeps the
fresh entry; for master/user rotations the loop mutates the live entry. -/
def updateScheduleAfter (env : KMEnv) (st : KMState) (keyId : String)
    (sch : KeyRotationSchedule) : KMState :=
  match sch.keyType with
  | .organization => st
  | _ =>
    let sch1 := { sch with lastRotated := env.now, nextRotation := env.now + sch.rotationInterval }
    { st with rotationSchedules := setA st.rotationSchedules keyId sch1 }

/-- The loop of `KeyManager.checkAndPerformScheduledRotations` (lines
295-316) over an explicit list of schedule entries.  There is no
try/catch around the rotation calls: an error propagates immediately,
abandoning the rest of the pass (the partial cache updates of the
failing rotation remain).  Entries inserted during the pass (the fresh
`org:` schedule re-created by an organization rotation) are never due —
their next rotation lies a full interval in the future — so iterating
the initial snapshot is observationally faithful to JS `Map` iteration. -/
def runRotationPass (env : KMEnv) :
    List (String × KeyRotationSchedule) → KMState → KMState × Option KMError
| [], st => (st, none)
| (keyId, sch) :: rest, st =>
  if sch.autoRotate && decide (sch.nextRotation ≤ env.now) then
    match rotateDispatch env st keyId sch.keyType with
    | (st1, some e) => (st1, some e)
    | (st1, none) => runRotationPass env rest (updateScheduleAfter env st1 keyId sch)
  else runRotationPass env rest st

/-- `KeyManager.checkAndPerformScheduledRotations`. -/
def checkAndPerformScheduledRotations (env : KMEnv) (st : KMState) :
    KMState × Option KMError :=
  runRotationPass env st.rotationSchedules st

/-- Constructor options of `EncryptedFileRepository`
(`EncryptedFileOptions`; `autoEncrypt` only gates `create`/`update` and
is not needed by the operations modelled here). -/
structure RepoOptions where
  organizationId : Option String
  classification : Option Classification
  corporateLevel : Option CorporateLevel

/-- `EncryptedFileRepository.getEntityDirectory`. -/
def getEntityDirectory (opts : RepoOptions) (entityType : String) : String :=
  match opts.organizationId with
  | some oid => ("organizations/") ++ oid ++ ("/") ++ entityType ++ ("s")
  | none => entityType ++ ("s")

/-- `EncryptedFileRepository.getEntityPath`. -/
def getEntityPath (opts : RepoOptions) (entityType : String) (id : String) : String :=
  getEntityDirectory opts entityType ++ ("/") ++ id ++ (".json")

/-- Errors thrown out of the repository layer. -/
inductive RepoError
| invalidEncryptedFile
| accessDeniedEntity
| crypto : CryptoError → RepoError
| noSession
deriving DecidableEq, Repr

/-- `CryptoService.getFileMetadata`: metadata of an envelope file,
`none` on anything else (never throws). -/
def getFileMetadata (fs : FS) (p : String) : Option EncryptionMetadata :=
  match fsRead fs p with
  | some (.envelope md _) => some md
  | _ => none

/-- `EncryptedFileRepository.decryptEntityFile` (lines 344-362): read
the envelope metadata, check `KeyManager.validateUserKeyAccess` for the
current user against the file's recorded context, then delegate to
`CryptoService.decryptFile`. -/
def decryptEntityFile (env : Env) (st : CryptoState) (encryptedPath : String) :
    Except RepoError String × CryptoState :=
  match env.currentSession with
  | none => (.error .noSession, st)
  | some sess =>
    match getFileMetadata st.fs encryptedPath with
    | none => (.error .invalidEncryptedFile, st)
    | some metadata =>
      if !validateUserKeyAccess (some sess) sess.user.id metadata.organizationId
          metadata.classification metadata.corporateLevel then
        (.error .accessDeniedEntity, st)
      else
        match decryptFile env st encryptedPath none with
        | (.ok p, st', _) => (.ok p, st')
        | (.error e, st', _) => (.error (.crypto e), st')

/-- `EncryptedFileRepository.findById` (lines 68-90).  Returns the
parsed entity ('the raw bytes of the plaintext JSON' in this model) or
`none`, threading the filesystem state.  Errors of `decryptEntityFile`
propagate (they are not inside the `try`); only the final read/parse is
caught and turned into `none`.  The decrypted plaintext file is removed
only under the guard `filePath ≠ entityPath`.  A `.json`-named file
holding an envelope is outside the byte-level entity model and parses
to `none` here. -/
def findById (env : Env) (opts : RepoOptions) (entityType : String)
    (st : CryptoState) (id : String) :
    Except RepoError (Option (List Nat)) × CryptoState :=
  let entityPath := getEntityPath opts entityType id
  let encryptedPath := entityPath ++ (".encrypted")
  if fsExists st.fs encryptedPath then
    match decryptEntityFile env st encryptedPath with
    | (.error e, st') => (.error e, st')
    | (.ok filePath, st') =>
      match fsRead st'.fs filePath with
      | some (.plain bytes) =>
        if env.parseOk bytes then
          if fsExists st'.fs encryptedPath ∧ filePath ≠ entityPath then
            (.ok (some bytes), { st' with fs := fsRemove st'.fs filePath })
          else
            (.ok (some bytes), st')
        else (.ok none, st')
      | _ => (.ok none, st')
  else if !fsExists st.fs entityPath then (.ok none, st)
  else
    match fsRead st.fs entityPath with
    | some (.plain bytes) =>
      if env.parseOk bytes then (.ok (some bytes), st) else (.ok none, st)
    | _ => (.ok none, st)

/-- Name of `p` inside directory `dir`: `some n` when `p = dir ++ "/" ++ n`
with `n` slash-free. -/
def stripDirName (dir p : String) : Option String :=
  let pre := (dir ++ ("/")).data
  let rest := p.data.drop pre.length
  if isPrefixOfC pre p.data && !containsSub [('/')] rest then some ⟨rest⟩ else none

/-- `fs.readdir` over the association-list filesystem: the names of the
files directly inside `dir`. -/
def readdirNames (fs : FS) (dir : String) : List String :=
  fs.filterMap (fun e => stripDirName dir e.1)

/-- Human-readable message of a CryptoService error (only the fact that
an error entry is recorded matters to the claims). -/
def cryptoErrMsg : CryptoError → String
| .noSession => "No active session"
| .fileNotFound => "File not found"
| .notEnvelope => "Not an encrypted envelope"
| .accessDenied => "Insufficient permissions"
| .decryptionFailed => "Decryption failed"
| .notPlain => "Not a plaintext file"

/-- `EncryptedFileRepository.encryptEntityFile` (lines 329-342):
existence check, then `CryptoService.encryptFile` with the repository's
configured context (defaults UNCLASSIFIED / MEMBER). -/
def encryptEntityFile (env : Env) (opts : RepoOptions) (st : CryptoState)
    (entityPath : String) (iv salt : List Nat) : Except CryptoError CryptoState :=
  if !fsExists st.fs entityPath then .error .fileNotFound
  else
    match encryptFile env st entityPath opts.organizationId
        (opts.classification.getD Classification.UNCLASSIFIED)
        ((opts.corporateLevel).getD CorporateLevel.MEMBER) iv salt with
    | .ok (_, st1) => .ok st1
    | .error e => .error e

/-- The per-file loop of `migrateToEncryption` (lines 295-310): for each
unencrypted name, `readJSON` it (abstracted by `parseOk`) and encrypt
it; any failure is caught and collected as an error entry, and the
remaining files are still processed.  `n` indexes the
`crypto.randomBytes` draws of the run. -/
def migGo (env : Env) (opts : RepoOptions) (dir : String) :
    List String → Nat → CryptoState →
    List String × List (String × String) × CryptoState
| [], _, st => ([], [], st)
| f :: rest, n, st =>
  let filePath := dir ++ ("/") ++ f
  match fsRead st.fs filePath with
  | some (.plain bytes) =>
    if env.parseOk bytes then
      match encryptEntityFile env opts st filePath (env.ivStream n) (env.saltStream n) with
      | .ok st1 =>
        let (ms, es, st2) := migGo env opts dir rest (n + 1) st1
        (filePath :: ms, es, st2)
      | .error e =>
        let (ms, es, st2) := migGo env opts dir rest (n + 1) st
        (ms, (filePath, cryptoErrMsg e) :: es, st2)
    else
      let (ms, es, st2) := migGo env opts dir rest (n + 1) st
      (ms, (filePath, ("JSON parse error")) :: es, st2)
  | _ =>
    let (ms, es, st2) := migGo env opts dir rest (n + 1) st
    (ms, (filePath, ("read error")) :: es, st2)

/-- The name filter of `migrateToEncryption`:
`f.endsWith('.json') && !f.endsWith('.encrypted')`. -/
def unencryptedNames (fs : FS) (dir : String) : List String :=
  (readdirNames fs dir).filter
    (fun f => strEndsWith f (".json") && !strEndsWith f (".encrypted"))

/-- `EncryptedFileRepository.migrateToEncryption` (lines 280-313):
returns the migrated file paths, the per-file error entries, and the
final state. -/
def migrateToEncryption (env : Env) (opts : RepoOptions) (entityType : String)
    (st : CryptoState) : List String × List (String × String) × CryptoState :=
  let dir := getEntityDirectory opts entityType
  migGo env opts dir (unencryptedNames st.fs dir) 0 st

theorem lookupA_removeA_self {α : Type} (l : List (String × α)) (k : String) :
    lookupA (removeA l k) k = none := by
  induction l with
  | nil => rfl
  | cons hd tl ih =>
    by_cases h : hd.1 = k
    · simpa [removeA, h] using ih
    · simpa [removeA, lookupA, h] using ih

theorem lookupA_removeA_ne {α : Type} (l : List (String × α)) (k k' : String) (h : k ≠ k') :
    lookupA (removeA l k) k' = lookupA l k' := by
  induction l with
  | nil => rfl
  | cons hd tl ih =>
    rcases hd with ⟨a, v⟩
    simp only [removeA, List.filter_cons] at ih ⊢
    by_cases hh : a = k
    · have hk2 : a ≠ k' := by rw [hh]; exact h
      simp [hh, lookupA, hk2, h, ih]
    · by_cases hk : a = k'
      · have hk3 : ¬ (k' = k) := by
          intro e
          exact h e.symm
        simp [hh, lookupA, hk, hk3]
      · simp [hh, lookupA, hk, ih]

theorem lookupA_setA_self {α : Type} (l : List (String × α)) (k : String) (v : α) :
    lookupA (setA l k v) k = some v := by
  simp [setA, lookupA]

theorem lookupA_setA_ne {α : Type} (l : List (String × α)) (k k' : String) (v : α)
    (h : k ≠ k') : lookupA (setA l k v) k' = lookupA l k' := by
  show lookupA ((k, v) :: removeA l k) k' = lookupA l k'
  simp only [lookupA, if_neg h]
  exact lookupA_removeA_ne l k k' h

theorem filter_not_filter {α : Type} (p : α → Bool) (l : List α) :
    (l.filter (fun x => !p x)).filter p = [] := by
  induction l with
  | nil => rfl
  | cons hd tl ih =>
    by_cases h : p hd
    · simpa [h] using ih
    · simpa [List.filter, h] using ih

/-- C10.  While a user has an active (unexpired) decryption session
whose cache holds a key under the composite id (user,
organization-or-global, classification, corporate level),
`deriveFileKey` returns that cached key for every salt argument — the
salt in a file's metadata does not determine the key used during the
session — and the state is left unchanged. -/
theorem sessionCacheIgnoresSalt (env : Env) (st : CryptoState) (userId : String)
    (organizationId : Option String) (cl : Classification) (corp : CorporateLevel)
    (sess : DecryptionSession) (k : Bytes)
    (hs : lookupA st.activeSessions userId = some sess)
    (hunexpired : env.now < sess.expiresAt)
    (hk : lookupA sess.derivedKeys (fileKeyId userId organizationId cl corp) = some k)
    (salt1 salt2 : Option (List Nat)) (f1 f2 : List Nat) :
    (deriveFileKey env st userId organizationId cl corp salt1 f1).1 = k ∧
    (deriveFileKey env st userId organizationId cl corp salt2 f2).1 = k ∧
    (deriveFileKey env st userId organizationId cl corp salt1 f1).2 = st := by
  simp [deriveFileKey, hs, hk]

/-- A concrete decryption session whose cache holds a key for user `u`
in the global scope. -/
def sessU : DecryptionSession :=
  { sessionKey := Bytes.raw [8],
    derivedKeys := [(fileKeyId ("u") none Classification.UNCLASSIFIED CorporateLevel.MEMBER,
      Bytes.raw [9])],
    expiresAt := 100 }

/-- A concrete CryptoService state with user `u`'s session active. -/
def stU : CryptoState := { fs := [], activeSessions := [(("u"), sessU)] }

/-- The user `alice`, a plain system member. -/
def aliceUser : User := { id := ("alice"), systemRole := SystemRole.member }

/-- An authentication session for `alice` with no organization
memberships. -/
def aliceSession : AuthSession := { user := aliceUser, organizationMemberships := [] }

/-- A concrete environment: `alice` logged in, master key `[7]`. -/
def env0 : Env :=
  { currentSession := some aliceSession, masterKey := [7], now := 0,
    parseOk := fun _ => true, ivStream := fun _ => [1, 1], saltStream := fun _ => [2, 2] }

theorem sessionCacheIgnoresSaltWitness :
    (deriveFileKey env0 stU ("u") none Classification.UNCLASSIFIED CorporateLevel.MEMBER
      (some [3, 3]) [0]).1 = Bytes.raw [9] ∧
    (deriveFileKey env0 stU ("u") none Classification.UNCLASSIFIED CorporateLevel.MEMBER
      (some [4, 4]) [0]).1 = Bytes.raw [9] ∧
    (deriveFileKey env0 stU ("u") none Classification.UNCLASSIFIED CorporateLevel.MEMBER
      (some [3, 3]) [0]).2 = stU :=
  sessionCacheIgnoresSalt env0 stU ("u") none Classification.UNCLASSIFIED CorporateLevel.MEMBER
    sessU (Bytes.raw [9]) (by decide) (by decide) (by decide) (some [3, 3]) (some [4, 4]) [0] [0]

/-- C3.  When the authorization check `canDecryptFile` fails,
`decryptFile` raises the access-denied error with the state unchanged
and an empty event trace: no key derivation and no plaintext write has
happened. -/
theorem accessDeniedBeforeCrypto (env : Env) (st : CryptoState) (encryptedPath : String)
    (outputPath : Option String) (sess : AuthSession) (md : EncryptionMetadata)
    (ct : Ciphertext)
    (hs : env.currentSession = some sess)
    (hf : fsRead st.fs encryptedPath = some (.envelope md ct))
    (hc : canDecryptFile sess md sess.user.id = false) :
    decryptFile env st encryptedPath outputPath = (.error .accessDenied, st, []) := by
  unfold decryptFile
  rw [hs, hf]
  simp [hc]

/-- Placeholder associated data used only to build tag values in
concrete fixtures. -/
def dummyAad : AAD :=
  { userId := (""), organizationId := none, classification := Classification.UNCLASSIFIED,
    corporateLevel := CorporateLevel.MEMBER, fileName := ("") }

/-- Placeholder ciphertext for concrete fixtures. -/
def dummyCt : Ciphertext := Ciphertext.enc (Bytes.raw []) []

/-- Placeholder tag for concrete fixtures. -/
def dummyTag : AuthTag := AuthTag.tag (Bytes.raw []) dummyAad dummyCt

/-- The user `bob`, a plain system member with no memberships. -/
def bobUser : User := { id := ("bob"), systemRole := SystemRole.member }

/-- An authentication session for `bob`. -/
def bobSession : AuthSession := { user := bobUser, organizationMemberships := [] }

/-- Environment with `bob` logged in. -/
def envBob : Env :=
  { currentSession := some bobSession, masterKey := [7], now := 0,
    parseOk := fun _ => true, ivStream := fun _ => [1], saltStream := fun _ => [2] }

/-- Metadata of a file encrypted by `alice` for organization `org1`. -/
def c3Md : EncryptionMetadata :=
  { algorithm := ("aes-256-gcm"), version := ("1.0.0"), fileType := (".json"),
    originalSize := 2, encryptedAt := 0, encryptedBy := ("alice"),
    organizationId := some ("org1"), classification := Classification.UNCLASSIFIED,
    corporateLevel := CorporateLevel.MEMBER, iv := [0], authTag := dummyTag,
    salt := [0], iterations := 100000, keyLength := 32 }

/-- A state holding `alice`'s org file, with `bob` about to decrypt. -/
def c3St : CryptoState :=
  { fs := [(("f.json.encrypted"), FileContent.envelope c3Md dummyCt)], activeSessions := [] }

theorem accessDeniedBeforeCryptoWitness :
    decryptFile envBob c3St ("f.json.encrypted") none = (.error .accessDenied, c3St, []) :=
  accessDeniedBeforeCrypto envBob c3St ("f.json.encrypted") none bobSession c3Md dummyCt
    (by decide) (by decide) (by decide)

/-- C8.  `validateUserKeyAccess` is monotonic in the required corporate
level: for a fixed session, user, organization and classification, if
level `A`'s index on the fixed hierarchy list is at or below level
`B`'s, then access granted with required level `B` is also granted with
required level `A` (so a member at or above the required index is never
denied on the corporate-level check). -/
theorem validateAccessMonotone (sessO : Option AuthSession) (userId : String)
    (organizationId : Option String) (cl : Classification) (A B : CorporateLevel)
    (hAB : jsIndexOf corporateHierarchy (corpStr A) ≤ jsIndexOf corporateHierarchy (corpStr B))
    (hB : validateUserKeyAccess sessO userId organizationId cl B = true) :
    validateUserKeyAccess sessO userId organizationId cl A = true := by
  cases sessO with
  | none => exact hB
  | some sess =>
    simp only [validateUserKeyAccess] at hB ⊢
    by_cases h1 : sess.user.id ≠ userId ∧ roleStr sess.user.systemRole ≠ ("system.owner")
    · rw [if_pos h1] at hB
      exact (Bool.false_ne_true hB).elim
    · rw [if_neg h1] at hB ⊢
      cases organizationId with
      | none => rfl
      | some oid =>
        cases hfind : sess.organizationMemberships.find?
            (fun m => m.organizationId = oid && m.status = ("ACTIVE")) with
        | none =>
          simp only [hfind] at hB
          exact (Bool.false_ne_true hB).elim
        | some membership =>
          simp only [hfind] at hB ⊢
          by_cases h2 :
            (!(sess.user.systemRole = SystemRole.owner || cl = Classification.UNCLASSIFIED) : Bool) = true
          · rw [if_pos h2] at hB
            exact (Bool.false_ne_true hB).elim
          · rw [if_neg h2] at hB ⊢
            by_cases h3 : jsIndexOf corporateHierarchy (corpStr membership.corporateLevel) <
                jsIndexOf corporateHierarchy (corpStr B)
            · rw [if_pos h3] at hB
              exact (Bool.false_ne_true hB).elim
            · have h4 : ¬ (jsIndexOf corporateHierarchy (corpStr membership.corporateLevel) <
                  jsIndexOf corporateHierarchy (corpStr A)) := by omega
              rw [if_neg h4]

/-- The user `carol`, a manager in `org1`. -/
def carolSession : AuthSession :=
  { user := { id := ("carol"), systemRole := SystemRole.member },
    organizationMemberships :=
      [{ organizationId := ("org1"), corporateLevel := CorporateLevel.MANAGER,
         status := ("ACTIVE") }] }

theorem validateAccessMonotoneWitness :
    validateUserKeyAccess (some carolSession) ("carol") (some ("org1"))
      Classification.UNCLASSIFIED CorporateLevel.MEMBER = true :=
  validateAccessMonotone (some carolSession) ("carol") (some ("org1"))
    Classification.UNCLASSIFIED CorporateLevel.MEMBER CorporateLevel.MANAGER
    (by decide) (by decide)

/-- A KeyManager environment with a fixed clock and no audit failures. -/
def kmEnv0 : KMEnv :=
  { now := 0, newMasterKey := Bytes.raw [9], auditFails := fun _ _ => false }

/-- State after deriving organization `a`'s key on a fresh hierarchy
with master key `[7]`: the organization key is cached. -/
def c6St1 : KMState := (deriveOrganizationKey kmEnv0 (kmFresh (Bytes.raw [7])) ("a")).2

/-- The deterministic key of organization `a` under master key `[7]`. -/
def c6K : Bytes := orgKeySpec (Bytes.raw [7]) ("a")

/-- C6, counterexample.  `c6K` is the pre-rotation cached organization
key; immediately after `rotateOrganizationKeys('a')` returns, that very
key is back in the organization cache (the rotation re-derives and
re-caches it), and a subsequent derive call returns a key *equal* to the
pre-rotation cached value.  Both halves of the claim — no key scoped
under the org remains cached, and the re-derived key differs — are false
at this input. -/
theorem rotateKeepsOrgKeyCounterexample :
    lookupA c6St1.organizationKeys ("a") = some c6K ∧
    lookupA (rotateOrganizationKeysM kmEnv0 c6St1 ("a")).1.organizationKeys ("a") = some c6K ∧
    (deriveOrganizationKey kmEnv0 (rotateOrganizationKeysM kmEnv0 c6St1 ("a")).1 ("a")).1 = c6K := by
  decide

/-- C6, amended.  After `rotateOrganizationKeys(orgId)`: no
classification, corporate, or user-session key scoped under the
organization remains in any cache; the organization key itself has been
re-derived and re-cached with the deterministic value
`orgKeySpec masterKey orgId` (equal to any consistently cached
pre-rotation value, since the master key is unchanged), and a subsequent
derive call returns that same value. -/
theorem rotateOrganizationInvalidation (env : KMEnv) (st : KMState) (oid : String) :
    lookupA (rotateOrganizationKeysM env st oid).1.classificationKeys oid = none ∧
    lookupA (rotateOrganizationKeysM env st oid).1.corporateKeys oid = none ∧
    ((rotateOrganizationKeysM env st oid).1.userSessionKeys.filter
      (fun p => strContains p.1 ((":") ++ oid ++ (":")))) = [] ∧
    lookupA (rotateOrganizationKeysM env st oid).1.organizationKeys oid
      = some (orgKeySpec st.masterKey oid) ∧
    (deriveOrganizationKey env (rotateOrganizationKeysM env st oid).1 oid).1
      = orgKeySpec st.masterKey oid := by
  by_cases hA : env.auditFails KeyType.organization oid <;>
    simp [rotateOrganizationKeysM, deriveOrganizationKey, scheduleKeyRotation, hA,
      lookupA_removeA_self, lookupA_setA_self, filter_not_filter]

/-- C7, amended.  An error while rotating one due, autoRotate-enabled
key id aborts the scheduling pass: the error propagates out of
`checkAndPerformScheduledRotations` and none of the later entries in
the pass is processed (their rotations are not performed and their
schedules are not updated). -/
theorem rotationFailureAbortsPass (env : KMEnv) (es1 es2 : List (String × KeyRotationSchedule))
    (st st1 : KMState) (e : KMError)
    (h : runRotationPass env es1 st = (st1, some e)) :
    runRotationPass env (es1 ++ es2) st = (st1, some e) := by
  induction es1 generalizing st with
  | nil =>
    exact absurd (congrArg Prod.snd h) (by simp [runRotationPass])
  | cons hd tl ih =>
    rcases hd with ⟨keyId, sch⟩
    rw [List.cons_append]
    rw [runRotationPass] at h ⊢
    by_cases hdue : (sch.autoRotate && decide (sch.nextRotation ≤ env.now)) = true
    · rw [if_pos hdue] at h ⊢
      rcases hrd : rotateDispatch env st keyId sch.keyType with ⟨st', eo⟩
      rw [hrd] at h
      cases eo with
      | none => exact ih _ h
      | some e' => exact h
    · rw [if_neg hdue] at h ⊢
      exact ih _ h

/-- A due, autoRotate-enabled schedule for organization `a`. -/
def c7SchOrg : KeyRotationSchedule :=
  { keyType := KeyType.organization, lastRotated := 0, nextRotation := 0,
    rotationInterval := 1000, autoRotate := true }

/-- A due, autoRotate-enabled schedule for user `u`. -/
def c7SchUser : KeyRotationSchedule :=
  { keyType := KeyType.user, lastRotated := 0, nextRotation := 0,
    rotationInterval := 1000, autoRotate := true }

/-- Two due schedules: organization `a` first, then user `u`. -/
def c7Sch : List (String × KeyRotationSchedule) :=
  [(("org:a"), c7SchOrg), (("user:u"), c7SchUser)]

/-- A hierarchy holding a cached session key for user `u`, with both
schedules of `c7Sch` due. -/
def c7St : KMState :=
  { masterKey := Bytes.raw [7], systemKeys := deriveSystemKeysList (Bytes.raw [7]),
    organizationKeys := [], classificationKeys := [], corporateKeys := [],
    userSessionKeys := [(("u:global:UNCLASSIFIED:MEMBER"), Bytes.raw [1])],
    rotationSchedules := c7Sch }

/-- Environment in which the audit-log append of organization `a`'s
rotation throws and everything else succeeds. -/
def c7Env : KMEnv :=
  { now := 5, newMasterKey := Bytes.raw [9],
    auditFails := fun kt i => kt = KeyType.organization && i = ("a") }

/-- C7, counterexample.  With two due autoRotate entries, the first
(organization `a`) failing: the pass returns the error, and the second
due key id (`user:u`) is *not* rotated — its session key survives and
its schedule is untouched — contradicting the claim that other due key
ids are still rotated. -/
theorem rotationPassAbortCounterexample :
    (checkAndPerformScheduledRotations c7Env c7St).2 = some KMError.auditLogFailed ∧
    lookupA (checkAndPerformScheduledRotations c7Env c7St).1.userSessionKeys
      ("u:global:UNCLASSIFIED:MEMBER") = some (Bytes.raw [1]) ∧
    (lookupA (checkAndPerformScheduledRotations c7Env c7St).1.rotationSchedules
      ("user:u")).map (fun s => s.lastRotated) = some 0 := by
  decide

theorem rotationFailureAbortsPassWitness :
    runRotationPass c7Env (c7Sch.take 1 ++ c7Sch.drop 1) c7St
      = ((runRotationPass c7Env (c7Sch.take 1) c7St).1, some KMError.auditLogFailed) :=
  rotationFailureAbortsPass c7Env (c7Sch.take 1) (c7Sch.drop 1) c7St
    (runRotationPass c7Env (c7Sch.take 1) c7St).1 KMError.auditLogFailed (by decide)

deriving instance DecidableEq for Except

/-- A state holding the plaintext file `a.txt`. -/
def st0 : CryptoState := { fs := [(("a.txt"), FileContent.plain [1, 2, 3])], activeSessions := [] }

/-- State after `alice` encrypts `a.txt` (envelope at `a.txt.encrypted`,
plaintext removed). -/
def c2St1 : CryptoState :=
  ((encryptFile env0 st0 ("a.txt") none Classification.UNCLASSIFIED CorporateLevel.MEMBER
    [4, 4] [5, 5]).toOption.map Prod.snd).getD st0

/-- Attacker mutation: overwrite the `iv` field of an envelope's
metadata. -/
def mutateIv (fs : FS) (p : String) (newIv : List Nat) : FS :=
  match fsRead fs p with
  | some (.envelope md ct) => fsWrite fs p (.envelope { md with iv := newIv } ct)
  | _ => fs

/-- Attacker mutation: overwrite the `authTag` field of an envelope's
metadata. -/
def mutateTag (fs : FS) (p : String) (t : AuthTag) : FS :=
  match fsRead fs p with
  | some (.envelope md ct) => fsWrite fs p (.envelope { md with authTag := t } ct)
  | _ => fs

/-- Attacker mutation: overwrite an envelope's ciphertext. -/
def mutateCt (fs : FS) (p : String) (ct' : Ciphertext) : FS :=
  match fsRead fs p with
  | some (.envelope md _) => fsWrite fs p (.envelope md ct')
  | _ => fs

/-- `c2St1` with the stored IV replaced by different bytes. -/
def c2StIv : CryptoState := { c2St1 with fs := mutateIv c2St1.fs ("a.txt.encrypted") [9, 9] }

/-- `c2St1` with the stored authentication tag replaced. -/
def c2StTag : CryptoState := { c2St1 with fs := mutateTag c2St1.fs ("a.txt.encrypted") dummyTag }

/-- `c2St1` with the ciphertext replaced. -/
def c2StCt : CryptoState := { c2St1 with fs := mutateCt c2St1.fs ("a.txt.encrypted") dummyCt }

/-- C2, evidence at the failing input.  Mutating the IV stored in the
metadata does *not* make `decryptFile` fail: the source's
`createDecipher` call never receives the stored IV, so decryption
succeeds and writes the original plaintext.  Mutating the
authentication tag or the ciphertext does fail closed with a decryption
error and writes nothing. -/
theorem tamperBehaviorAtConcreteInput :
    (decryptFile env0 c2StIv ("a.txt.encrypted") none).1 = .ok ("a.txt") ∧
    fsRead (decryptFile env0 c2StIv ("a.txt.encrypted") none).2.1.fs ("a.txt")
      = some (FileContent.plain [1, 2, 3]) ∧
    (decryptFile env0 c2StTag ("a.txt.encrypted") none).1 = .error .decryptionFailed ∧
    fsRead (decryptFile env0 c2StTag ("a.txt.encrypted") none).2.1.fs ("a.txt") = none ∧
    (decryptFile env0 c2StCt ("a.txt.encrypted") none).1 = .error .decryptionFailed ∧
    fsRead (decryptFile env0 c2StCt ("a.txt.encrypted") none).2.1.fs ("a.txt") = none := by
  decide

/-- A repository state holding the plaintext entity file
`items/e1.json`. -/
def c4St0 : CryptoState :=
  { fs := [(("items/e1.json"), FileContent.plain [7, 7])], activeSessions := [] }

/-- State after the entity file was encrypted in place. -/
def c4St1 : CryptoState :=
  ((encryptFile env0 c4St0 ("items/e1.json") none Classification.UNCLASSIFIED
    CorporateLevel.MEMBER [4] [5]).toOption.map Prod.snd).getD c4St0

/-- Repository options with no organization scope and default context. -/
def optsNone : RepoOptions :=
  { organizationId := none, classification := none, corporateLevel := none }

/-- C4, evidence at the failing input.  `findById` on an entity whose
encrypted variant exists returns the entity, but `decryptFile` wrote the
plaintext to the entity path itself, so the cleanup guard
`filePath !== entityPath` is false and the decrypted plaintext remains
on disk next to the envelope after `findById` returns. -/
theorem findByIdLeavesPlaintext :
    (findById env0 optsNone ("item") c4St1 ("e1")).1 = .ok (some [7, 7]) ∧
    fsRead (findById env0 optsNone ("item") c4St1 ("e1")).2.fs ("items/e1.json")
      = some (FileContent.plain [7, 7]) ∧
    fsExists (findById env0 optsNone ("item") c4St1 ("e1")).2.fs ("items/e1.json.encrypted")
      = true := by
  decide

/-- A state holding a plaintext file whose name contains `.encrypted`. -/
def c1BadSt0 : CryptoState :=
  { fs := [(("a.encrypted.txt"), FileContent.plain [3, 3])], activeSessions := [] }

/-- State after encrypting `a.encrypted.txt`. -/
def c1BadSt1 : CryptoState :=
  ((encryptFile env0 c1BadSt0 ("a.encrypted.txt") none Classification.UNCLASSIFIED
    CorporateLevel.MEMBER [4] [5]).toOption.map Prod.snd).getD c1BadSt0

/-- C1, counterexample.  The file `a.encrypted.txt`: same user, same
context, no active decryption session — yet `decryptFile` of the
envelope fails instead of writing back the original bytes, because
`replace('.encrypted', '')` strips the *first* occurrence inside the
name when rebuilding the AAD file name, so the authentication check
sees different associated data. -/
theorem roundTripEncNameCounterexample :
    encryptFile env0 c1BadSt0 ("a.encrypted.txt") none Classification.UNCLASSIFIED
      CorporateLevel.MEMBER [4] [5] = .ok (("a.encrypted.txt.encrypted"), c1BadSt1) ∧
    (decryptFile env0 c1BadSt1 ("a.encrypted.txt.encrypted") none).1
      = .error .decryptionFailed ∧
    fsRead (decryptFile env0 c1BadSt1 ("a.encrypted.txt.encrypted") none).2.1.fs
      ("a.encrypted.txt") = none := by
  decide

/-- Consistency of a KeyManager state: every cached organization or
classification key equals its deterministic derivation from the current
master key.  This holds for any state actually produced by the manager
(fresh start, reloaded persisted hierarchy, or any sequence of derive
and rotate calls). -/
def kmConsistent (st : KMState) : Prop :=
  (∀ oid k, lookupA st.organizationKeys oid = some k → k = orgKeySpec st.masterKey oid) ∧
  (∀ oid m, lookupA st.classificationKeys oid = some m →
    ∀ cl k, lookupA m (classStr cl) = some k → k = classKeySpec st.masterKey oid cl)

theorem classStr_inj (a b : Classification) (h : classStr a = classStr b) : a = b := by
  cases a <;> cases b <;> first | rfl | exact absurd h (by decide)

theorem kmConsistent_kmFresh (mk : Bytes) : kmConsistent (kmFresh mk) := by
  constructor
  · intro oid k h
    simp [kmFresh, lookupA] at h
  · intro oid m h
    simp [kmFresh, lookupA] at h

theorem deriveOrganizationKey_spec (env : KMEnv) (st : KMState) (oid : String)
    (hc : kmConsistent st) :
    (deriveOrganizationKey env st oid).1 = orgKeySpec st.masterKey oid ∧
    (deriveOrganizationKey env st oid).2.masterKey = st.masterKey ∧
    (deriveOrganizationKey env st oid).2.classificationKeys = st.classificationKeys ∧
    kmConsistent (deriveOrganizationKey env st oid).2 := by
  unfold deriveOrganizationKey
  cases hl : lookupA st.organizationKeys oid with
  | some k => exact ⟨hc.1 oid k hl, rfl, rfl, hc⟩
  | none =>
    refine ⟨rfl, rfl, rfl, ?_, ?_⟩
    · intro oid' k' h'
      simp only [scheduleKeyRotation] at h'
      by_cases he : oid = oid'
      · subst he
        rw [lookupA_setA_self] at h'
        cases h'
        rfl
      · rw [lookupA_setA_ne _ _ _ _ he] at h'
        exact hc.1 oid' k' h'
    · intro oid' m h'
      exact hc.2 oid' m h'


theorem ensureClassEntry_masterKey (st : KMState) (oid : String) :
    (ensureClassEntry st oid).masterKey = st.masterKey := by
  unfold ensureClassEntry
  split <;> rfl

theorem ensureClassEntry_lookup (st : KMState) (oid : String) :
    lookupA (ensureClassEntry st oid).classificationKeys oid
      = some ((lookupA st.classificationKeys oid).getD []) := by
  unfold ensureClassEntry
  cases hl : lookupA st.classificationKeys oid with
  | some m => simp [hl]
  | none => simp [hl, lookupA_setA_self]

theorem ensureClassEntry_consistent (st : KMState) (oid : String) (hc : kmConsistent st) :
    kmConsistent (ensureClassEntry st oid) := by
  unfold ensureClassEntry
  split
  · exact hc
  · constructor
    · intro oid' k h
      exact hc.1 oid' k h
    · intro oid' m h
      by_cases he : oid = oid'
      · subst he
        rw [lookupA_setA_self] at h
        cases h
        intro cl k hk
        simp [lookupA] at hk
      · rw [lookupA_setA_ne _ _ _ _ he] at h
        exact hc.2 oid' m h

theorem ensureClassEntry_mConsistent (st : KMState) (oid : String) (hc : kmConsistent st) :
    ∀ cl k, lookupA ((lookupA st.classificationKeys oid).getD []) (classStr cl) = some k →
      k = classKeySpec st.masterKey oid cl := by
  cases hl : lookupA st.classificationKeys oid with
  | some m =>
    intro cl k hk
    exact hc.2 oid m hl cl k (by simpa using hk)
  | none =>
    intro cl k hk
    simp [lookupA] at hk

theorem deriveClassificationKey_spec (env : KMEnv) (st : KMState) (oid : String)
    (cl : Classification) (hc : kmConsistent st) :
    (deriveClassificationKey env st oid cl).1 = classKeySpec st.masterKey oid cl ∧
    (deriveClassificationKey env st oid cl).2.masterKey = st.masterKey ∧
    kmConsistent (deriveClassificationKey env st oid cl).2 := by
  have hE := ensureClassEntry_consistent st oid hc
  have hEm := ensureClassEntry_masterKey st oid
  have hMc := ensureClassEntry_mConsistent st oid hc
  unfold deriveClassificationKey
  simp only [ensureClassEntry_lookup, Option.getD_some]
  cases hk : lookupA ((lookupA st.classificationKeys oid).getD []) (classStr cl) with
  | some k => exact ⟨hMc cl k hk, hEm, hE⟩
  | none =>
    have hd := deriveOrganizationKey_spec env (ensureClassEntry st oid) oid hE
    rcases hDK : deriveOrganizationKey env (ensureClassEntry st oid) oid with ⟨orgKey, st1⟩
    rw [hDK] at hd
    have horg : orgKey = orgKeySpec st.masterKey oid :=
      hd.1.trans (congrArg (fun mk => orgKeySpec mk oid) hEm)
    have hm1 : st1.masterKey = st.masterKey := hd.2.1.trans hEm
    have hcls1 : st1.classificationKeys = (ensureClassEntry st oid).classificationKeys :=
      hd.2.2.1
    have hcons1 : kmConsistent st1 := hd.2.2.2
    refine ⟨?_, hm1, ?_, ?_⟩
    · show Bytes.pbkdf2 orgKey (Bytes.str (("class:") ++ classStr cl)) 100000 32
        = classKeySpec st.masterKey oid cl
      rw [horg]
      rfl
    · intro oid' k' h'
      exact hcons1.1 oid' k' h'
    · intro oid' m' h' cl' k' hk'
      show k' = classKeySpec st1.masterKey oid' cl'
      rw [hm1]
      by_cases he : oid = oid'
      · subst he
        have h2 : lookupA (setA st1.classificationKeys oid
            (setA ((lookupA st.classificationKeys oid).getD []) (classStr cl)
              (Bytes.pbkdf2 orgKey (Bytes.str (("class:") ++ classStr cl)) 100000 32))) oid
            = some m' := h'
        rw [lookupA_setA_self] at h2
        cases h2
        by_cases hss : classStr cl = classStr cl'
        · have hcc := classStr_inj _ _ hss
          subst hcc
          rw [lookupA_setA_self] at hk'
          cases hk'
          rw [horg]
          rfl
        · rw [lookupA_setA_ne _ _ _ _ hss] at hk'
          exact hMc cl' k' hk'
      · have h2 : lookupA (setA st1.classificationKeys oid
            (setA ((lookupA st.classificationKeys oid).getD []) (classStr cl)
              (Bytes.pbkdf2 orgKey (Bytes.str (("class:") ++ classStr cl)) 100000 32))) oid'
            = some m' := h'
        rw [lookupA_setA_ne _ _ _ _ he, hcls1] at h2
        have hres := hE.2 oid' m' h2 cl' k' hk'
        exact hres.trans (by rw [hEm])

/-- C5.  Determinism of organization and classification keys: in any
consistent hierarchy state, `deriveOrganizationKey` and
`deriveClassificationKey` return the deterministic derivations
`orgKeySpec`/`classKeySpec` of the master key and the fixed path labels;
repeated calls (even at a later wall-clock time `env'`) return the same
key; and the same calls on a freshly initialized hierarchy over the same
unrotated master key recompute the same keys. -/
theorem deriveDeterminism (env env' : KMEnv) (st : KMState) (hc : kmConsistent st)
    (oid : String) (cl : Classification) :
    (deriveOrganizationKey env st oid).1 = orgKeySpec st.masterKey oid ∧
    (deriveOrganizationKey env' (deriveOrganizationKey env st oid).2 oid).1
      = orgKeySpec st.masterKey oid ∧
    (deriveClassificationKey env st oid cl).1 = classKeySpec st.masterKey oid cl ∧
    (deriveClassificationKey env' (deriveClassificationKey env st oid cl).2 oid cl).1
      = classKeySpec st.masterKey oid cl ∧
    (deriveOrganizationKey env' (kmFresh st.masterKey) oid).1 = orgKeySpec st.masterKey oid ∧
    (deriveClassificationKey env' (kmFresh st.masterKey) oid cl).1
      = classKeySpec st.masterKey oid cl := by
  have h1 := deriveOrganizationKey_spec env st oid hc
  have h2 := deriveOrganizationKey_spec env' (deriveOrganizationKey env st oid).2 oid
    h1.2.2.2
  have h3 := deriveClassificationKey_spec env st oid cl hc
  have h4 := deriveClassificationKey_spec env' (deriveClassificationKey env st oid cl).2 oid cl
    h3.2.2
  have h5 := deriveOrganizationKey_spec env' (kmFresh st.masterKey) oid
    (kmConsistent_kmFresh st.masterKey)
  have h6 := deriveClassificationKey_spec env' (kmFresh st.masterKey) oid cl
    (kmConsistent_kmFresh st.masterKey)
  refine ⟨h1.1, ?_, h3.1, ?_, h5.1, h6.1⟩
  · rw [h2.1, h1.2.1]
  · rw [h4.1, h3.2.1]

theorem deriveDeterminismWitness :
    (deriveOrganizationKey kmEnv0 (kmFresh (Bytes.raw [3])) ("o")).1
      = orgKeySpec (Bytes.raw [3]) ("o") ∧
    (deriveClassificationKey kmEnv0 (kmFresh (Bytes.raw [3])) ("o")
      Classification.SECRET).1 = classKeySpec (Bytes.raw [3]) ("o") Classification.SECRET :=
  ⟨(deriveDeterminism kmEnv0 kmEnv0 (kmFresh (Bytes.raw [3]))
      (kmConsistent_kmFresh (Bytes.raw [3])) ("o") Classification.SECRET).1,
   (deriveDeterminism kmEnv0 kmEnv0 (kmFresh (Bytes.raw [3]))
      (kmConsistent_kmFresh (Bytes.raw [3])) ("o") Classification.SECRET).2.2.1⟩

theorem isPrefixOfC_iff (p s : List Char) : isPrefixOfC p s = true ↔ p <+: s := by
  induction p generalizing s with
  | nil => simp [isPrefixOfC]
  | cons a as ih =>
    cases s with
    | nil => simp [isPrefixOfC, List.prefix_nil]
    | cons b bs => simp [isPrefixOfC, List.cons_prefix_cons, ih]

theorem containsSub_iff (p s : List Char) : containsSub p s = true ↔ p <:+: s := by
  induction s with
  | nil => simp [containsSub, isPrefixOfC_iff, List.prefix_nil, List.infix_nil]
  | cons c rest ih =>
    simp [containsSub, isPrefixOfC_iff, ih, List.infix_cons_iff]

theorem short_overlap_false (a : Char) (t : List Char) (ha : a ∉ t) (s u : List Char)
    (hs : s ≠ []) (hlt : s.length < (a :: t).length)
    (heq : s ++ (a :: t) = (a :: t) ++ u) : False := by
  have h1 : (s ++ (a :: t)).drop s.length = (a :: t) := List.drop_left s (a :: t)
  have h2 : ((a :: t) ++ u).drop s.length = (a :: t).drop s.length ++ u :=
    List.drop_append_of_le_length (by omega)
  rw [heq, h2] at h1
  have hpre : (a :: t).drop s.length <+: (a :: t) := ⟨u, h1⟩
  obtain ⟨n, hn⟩ : ∃ n, s.length = n + 1 := by
    cases hsl : s.length with
    | zero => exact absurd (List.length_eq_zero.mp hsl) hs
    | succ n => exact ⟨n, rfl⟩
  rw [hn, List.drop_succ_cons] at hpre
  have hne : t.drop n ≠ [] := by
    intro he
    have hlen : (t.drop n).length = t.length - n := List.length_drop n t
    rw [he] at hlen
    simp at hlen
    simp at hlt
    omega
  cases hd : t.drop n with
  | nil => exact hne hd
  | cons d ds =>
    rw [hd] at hpre
    have hda : d = a := (List.cons_prefix_cons.mp hpre).1
    have hmem : d ∈ t.drop n := by
      rw [hd]
      exact List.mem_cons_self d ds
    rw [hda] at hmem
    exact ha (List.mem_of_mem_drop hmem)

theorem not_prefix_append_self (a : Char) (t : List Char) (ha : a ∉ t) (s : List Char)
    (hs : s ≠ []) (hpre : isPrefixOfC (a :: t) s = false) :
    isPrefixOfC (a :: t) (s ++ (a :: t)) = false := by
  cases hb : isPrefixOfC (a :: t) (s ++ (a :: t)) with
  | false => rfl
  | true =>
    exfalso
    have hp : (a :: t) <+: s ++ (a :: t) := (isPrefixOfC_iff _ _).mp hb
    by_cases hl : (a :: t).length ≤ s.length
    · have hps : (a :: t) <+: s :=
        List.prefix_of_prefix_length_le hp (List.prefix_append s (a :: t)) hl
      rw [(isPrefixOfC_iff _ _).mpr hps] at hpre
      simp at hpre
    · obtain ⟨u, hu⟩ := hp
      exact short_overlap_false a t ha s u hs (by omega) hu.symm

theorem replaceFirstC_append (a : Char) (t : List Char) (ha : a ∉ t) :
    ∀ s, containsSub (a :: t) s = false →
      replaceFirstC (a :: t) [] (s ++ (a :: t)) = s := by
  intro s
  induction s with
  | nil =>
    intro _
    have h1 : isPrefixOfC (a :: t) (a :: t) = true :=
      (isPrefixOfC_iff _ _).mpr (List.prefix_refl _)
    show replaceFirstC (a :: t) [] ([] ++ (a :: t)) = []
    rw [List.nil_append]
    simp [replaceFirstC, h1, List.drop_length]
  | cons c s' ih =>
    intro hnc
    rw [containsSub, Bool.or_eq_false_iff] at hnc
    have hcond : isPrefixOfC (a :: t) ((c :: s') ++ (a :: t)) = false :=
      not_prefix_append_self a t ha (c :: s') (by simp) hnc.1
    rw [List.cons_append] at hcond ⊢
    rw [replaceFirstC, if_neg (by rw [hcond]; exact Bool.false_ne_true)]
    rw [ih hnc.2]

theorem takeWhile_append_all (p : Char → Bool) (l₁ l₂ : List Char)
    (h : ∀ x ∈ l₁, p x = true) :
    (l₁ ++ l₂).takeWhile p = l₁ ++ l₂.takeWhile p := by
  induction l₁ with
  | nil => simp
  | cons x xs ih =>
    have hx : p x = true := h x (List.mem_cons_self x xs)
    rw [List.cons_append, List.takeWhile_cons, if_pos hx, List.cons_append,
      ih (fun y hy => h y (List.mem_cons_of_mem x hy))]

theorem basenameC_append (s t : List Char) (h : ∀ c ∈ t, (!(c = '/' : Bool)) = true) :
    basenameC (s ++ t) = basenameC s ++ t := by
  unfold basenameC
  rw [List.reverse_append]
  rw [takeWhile_append_all _ t.reverse s.reverse
    (fun x hx => h x (List.mem_reverse.mp hx))]
  rw [List.reverse_append, List.reverse_reverse]

theorem basenameC_suffix (s : List Char) :
    s = (List.dropWhile (fun c => !(c = '/' : Bool)) s.reverse).reverse ++ basenameC s := by
  unfold basenameC
  calc s = s.reverse.reverse := (List.reverse_reverse s).symm
    _ = (List.takeWhile (fun c => !(c = '/' : Bool)) s.reverse
          ++ List.dropWhile (fun c => !(c = '/' : Bool)) s.reverse).reverse := by
        rw [List.takeWhile_append_dropWhile]
    _ = (List.dropWhile (fun c => !(c = '/' : Bool)) s.reverse).reverse
          ++ (List.takeWhile (fun c => !(c = '/' : Bool)) s.reverse).reverse := by
        rw [List.reverse_append]

theorem containsSub_mono (pat pre b : List Char) (h : containsSub pat (pre ++ b) = false) :
    containsSub pat b = false := by
  cases hb : containsSub pat b with
  | false => rfl
  | true =>
    exfalso
    have hi : pat <:+: b := (containsSub_iff _ _).mp hb
    have hi2 : pat <:+: pre ++ b := hi.trans (List.suffix_append pre b).isInfix
    rw [(containsSub_iff _ _).mpr hi2] at h
    simp at h

theorem strData_append (s t : String) : (s ++ t).data = s.data ++ t.data := by
  cases s
  cases t
  rfl

theorem strExt (a b : String) (h : a.data = b.data) : a = b := by
  cases a
  cases b
  cases h
  rfl

theorem self_ne_append (s t : String) (ht : t.data ≠ []) : s ≠ s ++ t := by
  intro he
  have hlen := congrArg (fun x => x.data.length) he
  simp only [strData_append, List.length_append] at hlen
  have : t.data.length = 0 := by omega
  exact ht (List.length_eq_zero.mp this)

theorem encData : (".encrypted" : String).data = ('.') :: ("encrypted" : String).data := by
  decide

theorem encNoDot : ('.') ∉ ("encrypted" : String).data := by decide

theorem encNoSlash : ∀ c ∈ (".encrypted" : String).data, (!(c = '/' : Bool)) = true := by
  decide

/-- Stripping the first `.encrypted` from `s ++ ".encrypted"` gives back
`s` whenever `s` itself does not contain `.encrypted` (the pattern
cannot overlap the boundary because '.' occurs only at its head). -/
theorem strReplaceFirst_strip (s : String) (hnc : strContains s (".encrypted") = false) :
    strReplaceFirst (s ++ (".encrypted")) (".encrypted") ("") = s := by
  apply strExt
  show replaceFirstC (".encrypted" : String).data ("" : String).data
    (s ++ (".encrypted")).data = s.data
  rw [strData_append]
  rw [show ("" : String).data = [] from rfl]
  rw [encData]
  rw [replaceFirstC_append ('.') ("encrypted" : String).data encNoDot s.data
    (by rw [← encData]; exact hnc)]

/-- `basename (p ++ ".encrypted") = basename p ++ ".encrypted"`. -/
theorem strBasename_append_enc (p : String) :
    strBasename (p ++ (".encrypted")) = strBasename p ++ (".encrypted") := by
  apply strExt
  show basenameC (p ++ (".encrypted")).data = (strBasename p ++ (".encrypted")).data
  rw [strData_append, strData_append]
  exact basenameC_append p.data (".encrypted" : String).data encNoSlash

/-- A path's basename contains `.encrypted` only if the path does. -/
theorem strContains_basename (p : String) (hnc : strContains p (".encrypted") = false) :
    strContains (strBasename p) (".encrypted") = false := by
  have h0 : containsSub (".encrypted" : String).data
      ((List.dropWhile (fun c => !(c = '/' : Bool)) p.data.reverse).reverse
        ++ basenameC p.data) = false := by
    rw [← basenameC_suffix p.data]
    exact hnc
  exact containsSub_mono (".encrypted" : String).data _ _ h0

/-- The two string facts the round trip needs, combined: the AAD file
name reconstructed at decrypt time equals the one bound at encrypt
time, and the output path equals the original path. -/
theorem roundTripNames (p : String) (hnc : strContains p (".encrypted") = false) :
    strReplaceFirst (strBasename (p ++ (".encrypted"))) (".encrypted") ("") = strBasename p ∧
    strReplaceFirst (p ++ (".encrypted")) (".encrypted") ("") = p := by
  constructor
  · rw [strBasename_append_enc]
    exact strReplaceFirst_strip (strBasename p) (strContains_basename p hnc)
  · exact strReplaceFirst_strip p hnc

/-- The file key `deriveFileKey` computes on a cache miss. -/
def fileKeyOf (masterKey : List Nat) (userId : String) (orgId : Option String)
    (cl : Classification) (corp : CorporateLevel) (salt : List Nat) : Bytes :=
  Bytes.pbkdf2 (fileKeyPassword masterKey userId orgId cl corp) (Bytes.raw salt) 100000 32

theorem deriveFileKey_nosession (env : Env) (st : CryptoState) (userId : String)
    (orgId : Option String) (cl : Classification) (corp : CorporateLevel)
    (salt fresh : List Nat) (hns : lookupA st.activeSessions userId = none) :
    deriveFileKey env st userId orgId cl corp (some salt) fresh
      = (fileKeyOf env.masterKey userId orgId cl corp salt, st) := by
  unfold deriveFileKey
  rw [hns]
  rfl

theorem canDecryptFile_self (sess : AuthSession) (md : EncryptionMetadata) (userId : String)
    (h : md.encryptedBy = userId) : canDecryptFile sess md userId = true := by
  unfold canDecryptFile
  split
  · rfl
  · simp [h]

theorem gcmDecrypt_correct (key : Bytes) (aad : AAD) (pt : List Nat) :
    gcmDecrypt key aad (Ciphertext.enc key pt)
      (AuthTag.tag key aad (Ciphertext.enc key pt)) = some pt := by
  simp [gcmDecrypt]

/-- The associated data `encryptFile` binds. -/
def encAadOf (userId : String) (orgId : Option String) (cl : Classification)
    (corp : CorporateLevel) (filePath : String) : AAD :=
  { userId := userId, organizationId := orgId, classification := cl,
    corporateLevel := corp, fileName := strBasename filePath }

/-- The metadata record `encryptFile` writes. -/
def encMdOf (env : Env) (userId : String) (filePath : String) (orgId : Option String)
    (cl : Classification) (corp : CorporateLevel) (iv salt bytes : List Nat)
    (key : Bytes) (aad : AAD) : EncryptionMetadata :=
  { algorithm := ("aes-256-gcm"), version := ("1.0.0"),
    fileType := if strExtname filePath = ("") then ("unknown") else strExtname filePath,
    originalSize := bytes.length, encryptedAt := env.now, encryptedBy := userId,
    organizationId := orgId, classification := cl, corporateLevel := corp,
    iv := iv, authTag := AuthTag.tag key aad (Ciphertext.enc key bytes), salt := salt,
    iterations := 100000, keyLength := 32 }

theorem encryptFile_eq (env : Env) (st : CryptoState) (filePath : String)
    (orgId : Option String) (cl : Classification) (corp : CorporateLevel)
    (iv salt bytes : List Nat) (sess : AuthSession)
    (hs : env.currentSession = some sess)
    (hf : fsRead st.fs filePath = some (.plain bytes))
    (hns : lookupA st.activeSessions sess.user.id = none) :
    encryptFile env st filePath orgId cl corp iv salt
      = Except.ok (filePath ++ (".encrypted"),
        { fs := fsRemove (fsWrite st.fs (filePath ++ (".encrypted"))
              (FileContent.envelope
                (encMdOf env sess.user.id filePath orgId cl corp iv salt bytes
                  (fileKeyOf env.masterKey sess.user.id orgId cl corp salt)
                  (encAadOf sess.user.id orgId cl corp filePath))
                (Ciphertext.enc (fileKeyOf env.masterKey sess.user.id orgId cl corp salt)
                  bytes)))
            filePath,
          activeSessions := st.activeSessions }) := by
  simp only [encryptFile, hs, hf,
    deriveFileKey_nosession env st sess.user.id orgId cl corp salt salt hns, gcmEncrypt,
    encMdOf, encAadOf, fileKeyOf]

/-- C1, amended.  Round trip: for a plaintext file whose path does not
contain `.encrypted` as a substring, encrypted and then decrypted by the
same user in the same context while that user has no active decryption
session, `decryptFile` succeeds and writes back exactly the original
bytes at the original path. -/
theorem roundTripOk (env : Env) (st : CryptoState) (filePath : String) (bytes : List Nat)
    (sess : AuthSession) (orgId : Option String) (cl : Classification)
    (corp : CorporateLevel) (iv salt : List Nat)
    (hs : env.currentSession = some sess)
    (hf : fsRead st.fs filePath = some (.plain bytes))
    (hns : lookupA st.activeSessions sess.user.id = none)
    (hnc : strContains filePath (".encrypted") = false) :
    ∃ st1 st2 evs,
      encryptFile env st filePath orgId cl corp iv salt
        = .ok (filePath ++ (".encrypted"), st1) ∧
      decryptFile env st1 (filePath ++ (".encrypted")) none = (.ok filePath, st2, evs) ∧
      fsRead st2.fs filePath = some (.plain bytes) := by
  have hnames := roundTripNames filePath hnc
  have hne : filePath ≠ filePath ++ (".encrypted") :=
    self_ne_append filePath (".encrypted") (by decide)
  have hEnc := encryptFile_eq env st filePath orgId cl corp iv salt bytes sess hs hf hns
  set key := fileKeyOf env.masterKey sess.user.id orgId cl corp salt with hkey
  set aadE := encAadOf sess.user.id orgId cl corp filePath with haad
  set mdE := encMdOf env sess.user.id filePath orgId cl corp iv salt bytes key aadE with hmd
  set ctE := Ciphertext.enc key bytes with hct
  set stE : CryptoState :=
    { fs := fsRemove (fsWrite st.fs (filePath ++ (".encrypted")) (FileContent.envelope mdE ctE))
        filePath,
      activeSessions := st.activeSessions } with hstE
  have hRead : fsRead stE.fs (filePath ++ (".encrypted"))
      = some (FileContent.envelope mdE ctE) := by
    show lookupA (removeA (setA st.fs (filePath ++ (".encrypted"))
      (FileContent.envelope mdE ctE)) filePath) (filePath ++ (".encrypted"))
      = some (FileContent.envelope mdE ctE)
    rw [lookupA_removeA_ne _ _ _ hne]
    exact lookupA_setA_self _ _ _
  have hCan : canDecryptFile sess mdE sess.user.id = true :=
    canDecryptFile_self sess mdE sess.user.id rfl
  have hDf2 : deriveFileKey env stE mdE.encryptedBy mdE.organizationId mdE.classification
      mdE.corporateLevel (some mdE.salt) mdE.salt = (key, stE) := by
    show deriveFileKey env stE sess.user.id orgId cl corp (some salt) salt = (key, stE)
    exact deriveFileKey_nosession env stE sess.user.id orgId cl corp salt salt hns
  have haadD :
      ({ userId := mdE.encryptedBy, organizationId := mdE.organizationId,
         classification := mdE.classification, corporateLevel := mdE.corporateLevel,
         fileName := strReplaceFirst (strBasename (filePath ++ (".encrypted")))
           (".encrypted") ("") } : AAD) = aadE := by
    simp [hmd, haad, encMdOf, encAadOf, hnames.1]
  have hTag : mdE.authTag = AuthTag.tag key aadE ctE := rfl
  have hDec : decryptFile env stE (filePath ++ (".encrypted")) none
      = (.ok filePath, { stE with fs := fsWrite stE.fs filePath (FileContent.plain bytes) },
        [DecEvent.derivedKey, DecEvent.wrote filePath]) := by
    simp only [decryptFile, hs, hRead, hCan, Bool.not_true, hDf2, haadD, hTag, hct,
      gcmDecrypt_correct, Option.getD, hnames.2]
    simp
  refine ⟨stE, _, _, hEnc, hDec, ?_⟩
  show lookupA (setA stE.fs filePath (FileContent.plain bytes)) filePath
    = some (FileContent.plain bytes)
  exact lookupA_setA_self _ _ _

theorem roundTripOkWitness :
    ∃ st1 st2 evs,
      encryptFile env0 st0 ("a.txt") none Classification.UNCLASSIFIED CorporateLevel.MEMBER
        [4, 4] [5, 5] = .ok (("a.txt") ++ (".encrypted"), st1) ∧
      decryptFile env0 st1 (("a.txt") ++ (".encrypted")) none = (.ok ("a.txt"), st2, evs) ∧
      fsRead st2.fs ("a.txt") = some (.plain [1, 2, 3]) :=
  roundTripOk env0 st0 ("a.txt") [1, 2, 3] aliceSession none Classification.UNCLASSIFIED
    CorporateLevel.MEMBER [4, 4] [5, 5] rfl (by decide) rfl (by decide)

theorem mem_removeA {α : Type} (l : List (String × α)) (k : String) (p : String × α)
    (h : p ∈ removeA l k) : p ∈ l ∧ p.1 ≠ k := by
  unfold removeA at h
  have hm := List.mem_filter.mp h
  refine ⟨hm.1, ?_⟩
  have := hm.2
  simpa using this

theorem mem_setA {α : Type} (l : List (String × α)) (k : String) (v : α) (p : String × α)
    (h : p ∈ setA l k v) : p = (k, v) ∨ (p ∈ l ∧ p.1 ≠ k) := by
  rcases List.mem_cons.mp h with h1 | h2
  · exact Or.inl h1
  · exact Or.inr (mem_removeA l k p h2)

theorem fsExists_of_mem (l : FS) (p : String) (c : FileContent) (h : (p, c) ∈ l) :
    fsExists l p = true := by
  induction l with
  | nil => cases h
  | cons hd tl ih =>
    rcases List.mem_cons.mp h with h1 | h2
    · have : hd.1 = p := by rw [← h1]
      simp [fsExists, lookupA, this]
    · by_cases hh : hd.1 = p
      · simp [fsExists, lookupA, hh]
      · simpa [fsExists, lookupA, hh] using ih h2

theorem exists_mem_of_fsExists (l : FS) (p : String) (h : fsExists l p = true) :
    ∃ c, (p, c) ∈ l := by
  induction l with
  | nil => simp [fsExists, lookupA] at h
  | cons hd tl ih =>
    by_cases hh : hd.1 = p
    · refine ⟨hd.2, ?_⟩
      have hhd : hd = (p, hd.2) := by
        rw [← hh]
      rw [← hhd]
      exact List.mem_cons_self hd tl
    · simp [fsExists, lookupA, hh] at h
      obtain ⟨c, hc⟩ := ih h
      exact ⟨c, List.mem_cons_of_mem hd hc⟩

theorem strAppend_assoc (a b c : String) : (a ++ b) ++ c = a ++ (b ++ c) :=
  String.append_assoc a b c

theorem strEta (s : String) : (⟨s.data⟩ : String) = s := by
  cases s
  rfl

theorem isPrefixOfC_append_self (p u : List Char) : isPrefixOfC p (p ++ u) = true :=
  (isPrefixOfC_iff _ _).mpr (List.prefix_append p u)

theorem strEndsWith_append_self (s t : String) : strEndsWith (s ++ t) t = true := by
  show isPrefixOfC t.data.reverse (s ++ t).data.reverse = true
  rw [strData_append, List.reverse_append]
  exact isPrefixOfC_append_self _ _

theorem djInj (dir n m : String) (h : dir ++ ("/") ++ n = dir ++ ("/") ++ m) : n = m := by
  apply strExt
  have := congrArg String.data h
  rw [strData_append, strData_append] at this
  exact List.append_cancel_left this

theorem stripDirName_eq_some (dir p n : String) :
    stripDirName dir p = some n
      ↔ p = dir ++ ("/") ++ n ∧ containsSub [('/')] n.data = false := by
  simp only [stripDirName]
  constructor
  · intro h
    split at h
    · rename_i hcond
      rw [Bool.and_eq_true] at hcond
      obtain ⟨u, hu⟩ := (isPrefixOfC_iff _ _).mp hcond.1
      have hdrop : p.data.drop (dir ++ ("/")).data.length = u := by
        rw [← hu]
        exact List.drop_left _ _
      cases h
      constructor
      · apply strExt
        rw [strData_append]
        show p.data = (dir ++ ("/")).data ++ p.data.drop (dir ++ ("/")).data.length
        rw [hdrop]
        exact hu.symm
      · show containsSub [('/')] (p.data.drop (dir ++ ("/")).data.length) = false
        rw [hdrop]
        have hc2 := hcond.2
        rw [hdrop] at hc2
        simpa using hc2
    · cases h
  · rintro ⟨hp, hns⟩
    subst hp
    have hdrop : (dir ++ ("/") ++ n).data.drop (dir ++ ("/")).data.length = n.data := by
      rw [strData_append]
      exact List.drop_left _ _
    have hpre : isPrefixOfC (dir ++ ("/")).data (dir ++ ("/") ++ n).data = true := by
      rw [strData_append]
      exact isPrefixOfC_append_self _ _
    rw [if_pos]
    · rw [hdrop, strEta]
    · rw [Bool.and_eq_true, hdrop]
      exact ⟨hpre, by simpa using hns⟩

theorem mem_readdirNames (fs : FS) (dir n : String) :
    n ∈ readdirNames fs dir
      ↔ ∃ c, (dir ++ ("/") ++ n, c) ∈ fs ∧ containsSub [('/')] n.data = false := by
  unfold readdirNames
  rw [List.mem_filterMap]
  constructor
  · rintro ⟨⟨p, c⟩, hm, hsd⟩
    obtain ⟨hp, hns⟩ := (stripDirName_eq_some dir p n).mp hsd
    subst hp
    exact ⟨c, hm, hns⟩
  · rintro ⟨c, hm, hns⟩
    exact ⟨(dir ++ ("/") ++ n, c), hm, (stripDirName_eq_some _ _ _).mpr ⟨rfl, hns⟩⟩

theorem deriveFileKey_fs (env : Env) (st : CryptoState) (userId : String)
    (orgId : Option String) (cl : Classification) (corp : CorporateLevel)
    (saltO : Option (List Nat)) (fresh : List Nat) :
    (deriveFileKey env st userId orgId cl corp saltO fresh).2.fs = st.fs := by
  rcases h1 : lookupA st.activeSessions userId with _ | sess
  · simp [deriveFileKey, h1]
  · rcases h2 : lookupA sess.derivedKeys (fileKeyId userId orgId cl corp) with _ | k
    · simp [deriveFileKey, h1, h2]
    · simp [deriveFileKey, h1, h2]

theorem encryptFile_fs (env : Env) (st : CryptoState) (p : String) (orgId : Option String)
    (cl : Classification) (corp : CorporateLevel) (iv salt : List Nat)
    (r : String × CryptoState)
    (h : encryptFile env st p orgId cl corp iv salt = .ok r) :
    ∃ e, r.2.fs = fsRemove (fsWrite st.fs (p ++ (".encrypted")) e) p := by
  unfold encryptFile at h
  split at h
  · cases h
  · rename_i sess _
    split at h
    · cases h
    · cases h
    · rename_i bytes _
      rcases hdk : deriveFileKey env st sess.user.id orgId cl corp (some salt) salt
        with ⟨dk, st1⟩
      rw [hdk] at h
      cases h
      have hfs : st1.fs = st.fs := by
        have hdf := deriveFileKey_fs env st sess.user.id orgId cl corp (some salt) salt
        rw [hdk] at hdf
        exact hdf
      simp only [hfs]
      exact ⟨_, rfl⟩

theorem encryptEntityFile_fs (env : Env) (opts : RepoOptions) (st : CryptoState)
    (p : String) (iv salt : List Nat) (st1 : CryptoState)
    (h : encryptEntityFile env opts st p iv salt = .ok st1) :
    ∃ e, st1.fs = fsRemove (fsWrite st.fs (p ++ (".encrypted")) e) p := by
  unfold encryptEntityFile at h
  split at h
  · cases h
  · cases henc : encryptFile env st p opts.organizationId
        (opts.classification.getD Classification.UNCLASSIFIED)
        ((opts.corporateLevel).getD CorporateLevel.MEMBER) iv salt with
    | error e => rw [henc] at h; cases h
    | ok r =>
      rw [henc] at h
      cases h
      exact encryptFile_fs env st p _ _ _ iv salt r henc

theorem migGo_total (env : Env) (opts : RepoOptions) (dir : String) :
    ∀ ws : List String, ∀ n st,
      (migGo env opts dir ws n st).1.length + (migGo env opts dir ws n st).2.1.length
        = ws.length := by
  intro ws
  induction ws with
  | nil =>
    intro n st
    rfl
  | cons f rest ih =>
    intro n st
    simp only [migGo]
    cases hr : fsRead st.fs (dir ++ ("/") ++ f) with
    | none =>
      rcases hm : migGo env opts dir rest (n + 1) st with ⟨ms, es, st2⟩
      have hlen := ih (n + 1) st
      rw [hm] at hlen
      simp only [hm, List.length_cons]
      simp at hlen ⊢
      omega
    | some fc =>
      cases fc with
      | envelope md ct =>
        rcases hm : migGo env opts dir rest (n + 1) st with ⟨ms, es, st2⟩
        have hlen := ih (n + 1) st
        rw [hm] at hlen
        simp only [hm, List.length_cons]
        simp at hlen ⊢
        omega
      | plain bytes =>
        by_cases hp : env.parseOk bytes
        · simp only [hp, if_true]
          cases hee : encryptEntityFile env opts st (dir ++ ("/") ++ f)
              (env.ivStream n) (env.saltStream n) with
          | ok st1 =>
            rcases hm : migGo env opts dir rest (n + 1) st1 with ⟨ms, es, st2⟩
            have hlen := ih (n + 1) st1
            rw [hm] at hlen
            simp only [hm, List.length_cons]
            simp at hlen ⊢
            omega
          | error e =>
            rcases hm : migGo env opts dir rest (n + 1) st with ⟨ms, es, st2⟩
            have hlen := ih (n + 1) st
            rw [hm] at hlen
            simp only [hm, List.length_cons]
            simp at hlen ⊢
            omega
        · simp only [hp, if_false]
          rcases hm : migGo env opts dir rest (n + 1) st with ⟨ms, es, st2⟩
          have hlen := ih (n + 1) st
          rw [hm] at hlen
          simp only [hm, List.length_cons]
          simp at hlen ⊢
          omega

theorem migGo_spec (env : Env) (opts : RepoOptions) (dir : String) :
    ∀ ws : List String, ∀ n st,
      (∀ f ∈ ws, strEndsWith f (".encrypted") = false) →
      (migGo env opts dir ws n st).2.1 = [] →
      (∀ f ∈ ws, fsExists (migGo env opts dir ws n st).2.2.fs (dir ++ ("/") ++ f) = false) ∧
      (∀ q c, (q, c) ∈ (migGo env opts dir ws n st).2.2.fs →
        (q, c) ∈ st.fs ∨ ∃ f ∈ ws, q = dir ++ ("/") ++ f ++ (".encrypted")) := by
  intro ws
  induction ws with
  | nil =>
    intro n st _ _
    constructor
    · intro f hf
      exact absurd hf (List.not_mem_nil f)
    · intro q c hm
      exact Or.inl hm
  | cons f rest ih =>
    intro n st hws herr
    simp only [migGo] at herr ⊢
    cases hr : fsRead st.fs (dir ++ ("/") ++ f) with
    | none =>
      rw [hr] at herr
      rcases hm : migGo env opts dir rest (n + 1) st with ⟨ms, es, st2⟩
      rw [hm] at herr
      simp at herr
    | some fc =>
      rw [hr] at herr
      cases fc with
      | envelope md ct =>
        rcases hm : migGo env opts dir rest (n + 1) st with ⟨ms, es, st2⟩
        rw [hm] at herr
        simp at herr
      | plain bytes =>
        by_cases hp : env.parseOk bytes
        · simp only [hp, if_true] at herr ⊢
          cases hee : encryptEntityFile env opts st (dir ++ ("/") ++ f)
              (env.ivStream n) (env.saltStream n) with
          | error e =>
            rw [hee] at herr
            simp at herr
          | ok st1 =>
            rw [hee] at herr
            simp only [] at herr ⊢
            rcases hm : migGo env opts dir rest (n + 1) st1 with ⟨ms, es, st2⟩
            have herr2 : es = [] := by
              rw [hm] at herr
              simpa using herr
            obtain ⟨e, hfs1⟩ := encryptEntityFile_fs env opts st (dir ++ ("/") ++ f)
              (env.ivStream n) (env.saltStream n) st1 hee
            have hwsr : ∀ g ∈ rest, strEndsWith g (".encrypted") = false :=
              fun g hg => hws g (List.mem_cons_of_mem f hg)
            have hihr := ih (n + 1) st1 hwsr (by rw [hm]; exact herr2)
            rw [hm] at hihr
            constructor
            · intro f' hf'
              rcases List.mem_cons.mp hf' with hf1 | hf2
              · subst hf1
                cases hex : fsExists st2.fs (dir ++ ("/") ++ f') with
                | false => rfl
                | true =>
                  exfalso
                  obtain ⟨c, hc⟩ := exists_mem_of_fsExists st2.fs _ hex
                  rcases hihr.2 _ c hc with hin | ⟨g, hg, hq⟩
                  · rw [hfs1] at hin
                    exact (mem_removeA _ _ _ hin).2 rfl
                  · rw [strAppend_assoc (dir ++ ("/")) g (".encrypted")] at hq
                    have hfg := djInj dir f' (g ++ (".encrypted")) hq
                    have hend : strEndsWith f' (".encrypted") = true := by
                      rw [hfg]
                      exact strEndsWith_append_self g (".encrypted")
                    rw [hws f' (List.mem_cons_self f' rest)] at hend
                    cases hend
              · exact hihr.1 f' hf2
            · intro q c hm2
              rcases hihr.2 q c hm2 with hin | ⟨g, hg, hq⟩
              · rw [hfs1] at hin
                obtain ⟨hin2, hqne⟩ := mem_removeA _ _ _ hin
                rcases mem_setA _ _ _ _ hin2 with heq | ⟨hin3, _⟩
                · refine Or.inr ⟨f, List.mem_cons_self f rest, ?_⟩
                  have := congrArg Prod.fst heq
                  simpa using this
                · exact Or.inl hin3
              · exact Or.inr ⟨g, List.mem_cons_of_mem f hg, hq⟩
        · simp only [hp, if_false] at herr
          rcases hm : migGo env opts dir rest (n + 1) st with ⟨ms, es, st2⟩
          rw [hm] at herr
          simp at herr

/-- C9.  Migration idempotence: if a `migrateToEncryption` run reports
no per-file errors, running it again returns an empty list of newly
migrated files, no errors, and an unchanged state.  Additionally: the
worklist never includes already-encrypted files (names ending
`.encrypted` are skipped), and every run attempts every worklist entry,
producing exactly one migrated path or one collected error entry per
file — errors never abort the batch. -/
theorem migrateIdempotent (env : Env) (opts : RepoOptions) (entityType : String)
    (st : CryptoState)
    (he : (migrateToEncryption env opts entityType st).2.1 = []) :
    migrateToEncryption env opts entityType ((migrateToEncryption env opts entityType st).2.2)
      = ([], [], (migrateToEncryption env opts entityType st).2.2) ∧
    (∀ f ∈ unencryptedNames st.fs (getEntityDirectory opts entityType),
      strEndsWith f (".encrypted") = false) ∧
    (∀ ws n st',
      (migGo env opts (getEntityDirectory opts entityType) ws n st').1.length
        + (migGo env opts (getEntityDirectory opts entityType) ws n st').2.1.length
        = ws.length) := by
  set dir := getEntityDirectory opts entityType with hdir
  have hws : ∀ f ∈ unencryptedNames st.fs dir, strEndsWith f (".encrypted") = false := by
    intro f hf
    have hf' : f ∈ (readdirNames st.fs dir).filter
        (fun f => strEndsWith f (".json") && !strEndsWith f (".encrypted")) := hf
    have hpred := (List.mem_filter.mp hf').2
    rw [Bool.and_eq_true] at hpred
    simpa using hpred.2
  have he' : (migGo env opts dir (unencryptedNames st.fs dir) 0 st).2.1 = [] := he
  have hspec := migGo_spec env opts dir (unencryptedNames st.fs dir) 0 st hws he'
  set st1 := (migGo env opts dir (unencryptedNames st.fs dir) 0 st).2.2 with hst1
  have hempty : unencryptedNames st1.fs dir = [] := by
    apply List.filter_eq_nil_iff.mpr
    intro nm hnm hpred
    rw [Bool.and_eq_true] at hpred
    obtain ⟨c, hmem, hns⟩ := (mem_readdirNames st1.fs dir nm).mp hnm
    rcases hspec.2 _ c hmem with hin | ⟨g, hg, hq⟩
    · have hnm0 : nm ∈ readdirNames st.fs dir :=
        (mem_readdirNames st.fs dir nm).mpr ⟨c, hin, hns⟩
      have hnmw : nm ∈ unencryptedNames st.fs dir :=
        List.mem_filter.mpr ⟨hnm0, by rw [Bool.and_eq_true]; exact hpred⟩
      have hnoex := hspec.1 nm hnmw
      rw [fsExists_of_mem st1.fs _ c hmem] at hnoex
      cases hnoex
    · rw [strAppend_assoc (dir ++ ("/")) g (".encrypted")] at hq
      have hng := djInj dir nm (g ++ (".encrypted")) hq
      have hend : strEndsWith nm (".encrypted") = true := by
        rw [hng]
        exact strEndsWith_append_self g (".encrypted")
      rw [hend] at hpred
      simp at hpred
  refine ⟨?_, hws, fun ws n st' => migGo_total env opts dir ws n st'⟩
  show migGo env opts dir (unencryptedNames st1.fs dir) 0 st1 = ([], [], st1)
  rw [hempty]
  rfl

/-- A repository directory with one unencrypted entity file. -/
def c9St : CryptoState :=
  { fs := [(("items/x.json"), FileContent.plain [1])], activeSessions := [] }

theorem migrateIdempotentWitness :
    migrateToEncryption env0 optsNone ("item")
      ((migrateToEncryption env0 optsNone ("item") c9St).2.2)
      = ([], [], (migrateToEncryption env0 optsNone ("item") c9St).2.2) :=
  (migrateIdempotent env0 optsNone ("item") c9St (by decide)).1
